import Mathlib

/-!
Verification of the BabylonCpp node-material build pipeline (the shader-graph
compiler subsystem): connection points, input blocks, per-stage build states,
shared cross-stage data, and the two-pass graph build that emits GLSL text.

The public headers `node_material_build_state.h` and the `InputBlock` header fix
the data structures (declaration lists, counters keyed by prefix, shared data,
the mode field of input blocks); the function bodies are modelled from the
design specification, as noted on each definition.
-/

namespace BabylonCpp

/-- Connection point types, from `NodeMaterialBlockConnectionPointTypes`
(scalar / vector / matrix families plus auto-detection). -/
inductive NodeMaterialBlockConnectionPointTypes where
  | Float
  | Int
  | Vector2
  | Vector3
  | Vector4
  | Color3
  | Color4
  | Matrix
  | AutoDetect
  deriving DecidableEq, Repr

abbrev NMType := NodeMaterialBlockConnectionPointTypes

/-- Stage targets, from `NodeMaterialBlockTargets`. -/
inductive NodeMaterialBlockTargets where
  | Vertex
  | Fragment
  | Neutral
  | VertexAndFragment
  deriving DecidableEq, Repr

/-- Connection point sourcing mode, from
`node_material_block_connection_point_mode.h` (the `_mode` field of
`InputBlock`). -/
inductive NodeMaterialBlockConnectionPointMode where
  | Uniform
  | Attribute
  | Varying
  | Undefined
  deriving DecidableEq, Repr

/-- Engine-supplied well-known values, from `NodeMaterialSystemValues`. -/
inductive NodeMaterialSystemValues where
  | World
  | View
  | Projection
  | ViewProjection
  | WorldView
  | WorldViewProjection
  | CameraPosition
  deriving DecidableEq, Repr

/-- Modelled from the spec: the error kinds of section 7 of the design
document (`connectTo`, build traversal and varying checking report these;
the C++ bodies that raise them are not in the extracted sources). -/
inductive BuildError where
  | TypeMismatch
  | AlreadyConnected
  | UnresolvedType
  | MissingConnection
  | CyclicGraph
  | VaryingTypeConflict
  deriving DecidableEq, Repr

/-- Literal values carried by input blocks (`InputValue` in the headers);
scalar and small-vector literals suffice for the build pipeline model. -/
inductive InputValue where
  | scalar (v : Int)
  | vec2 (x y : Int)
  | vec3 (x y z : Int)
  | vec4 (x y z w : Int)
  deriving DecidableEq, Repr

/-! ## Decimal rendering of counters

The free-name allocator suffixes a decimal counter (`uv_0`, `uv_1`, ...).
We render counters with an explicit decimal function so that injectivity of
the rendering is provable. -/

/-- Decimal digit characters, by structural recursion on explicit fuel so
that concrete computations reduce. -/
def decCharsAux : Nat → Nat → List Char
  | 0, _ => []
  | fuel + 1, n =>
    if n < 10 then [Nat.digitChar n]
    else decCharsAux fuel (n / 10) ++ [Nat.digitChar (n % 10)]

/-- Decimal digit characters of a natural number, most significant first. -/
def decChars (n : Nat) : List Char :=
  decCharsAux (n + 1) n

/-- Decimal string of a natural number. -/
def decString (n : Nat) : String :=
  String.mk (decChars n)

/-! ## Shared data and per-stage build state

Structure follows `node_material_build_state.h`: the build state holds the
emitted attribute/uniform/sampler lists, function and extension maps, the
per-prefix free-name counters and the accumulated compilation string; the
shared data holds the cross-stage varying registry and the excluded-name
set. -/

/-- Cross-stage shared data (`NodeMaterialBuildStateSharedData`). -/
structure NodeMaterialBuildStateSharedData where
  variableNames : List String := []
  varyings : List (String × NMType) := []
  varyingDeclaration : String := ""
  varyingRequests : List (String × NMType) := []
  deriving DecidableEq, Repr

/-- Per-stage build state (`NodeMaterialBuildState`).  The built-block marks
and generated-variable-name map are build-local state keyed by block id, one
per stage, as the design document prescribes for the per-pass "built" memo. -/
structure NodeMaterialBuildState where
  target : NodeMaterialBlockTargets
  supportUniformBuffers : Bool := false
  attributes : List String := []
  uniforms : List String := []
  samplers : List String := []
  functions : List (String × String) := []
  extensions : List (String × String) := []
  counters : List (String × Nat) := []
  _attributeDeclaration : String := ""
  _uniformDeclaration : String := ""
  _samplerDeclaration : String := ""
  _varyingTransfer : String := ""
  compilationString : String := ""
  _builtBlocks : List Nat := []
  _vnames : List (Nat × String) := []
  deriving DecidableEq, Repr

/-- First-match lookup in the counter association list (0 when absent). -/
def lookupCounter : List (String × Nat) → String → Nat
  | [], _ => 0
  | (k, v) :: rest, q => if q = k then v else lookupCounter rest q

namespace NodeMaterialBuildState

/-- Modelled from the spec: `NodeMaterialBuildState::_getFreeVariableName`
(body not in the extracted sources).  For a requested prefix it returns the
prefix suffixed with the current per-prefix counter and bumps that counter,
e.g. `uv_0`, `uv_1`, ... -/
def _getFreeVariableName (s : NodeMaterialBuildState) ( pfx : String) :
    String × NodeMaterialBuildState :=
  let n := lookupCounter s.counters pfx
  (pfx ++ "_" ++ decString n,
   { s with counters := (pfx, n + 1) :: s.counters })

/-- Modelled from the spec: `NodeMaterialBuildState::_getGLType` (body not in
the extracted sources); maps a connection point type to its GLSL type name. -/
def _getGLType : NMType → String
  | .Float => "float"
  | .Int => "int"
  | .Vector2 => "vec2"
  | .Vector3 => "vec3"
  | .Vector4 => "vec4"
  | .Color3 => "vec3"
  | .Color4 => "vec4"
  | .Matrix => "mat4"
  | .AutoDetect => "float"

/-- Modelled from the spec: `NodeMaterialBuildState::_emitUniformFromString`
(body not in the extracted sources).  Declarations are deduplicated by exact
name; a fresh name is appended in insertion order. -/
def _emitUniformFromString (s : NodeMaterialBuildState)
    (name : String) (type : String) : NodeMaterialBuildState :=
  if name ∈ s.uniforms then s
  else
    { s with
      uniforms := s.uniforms ++ [name]
      _uniformDeclaration :=
        s._uniformDeclaration ++ "uniform " ++ type ++ " " ++ name ++ ";\n" }

/-- Modelled from the spec: attribute declaration emission used by
`InputBlock::_emit` (body not in the extracted sources); deduplicated by
name, insertion order kept. -/
def _emitAttributeFromString (s : NodeMaterialBuildState)
    (name : String) (type : String) : NodeMaterialBuildState :=
  if name ∈ s.attributes then s
  else
    { s with
      attributes := s.attributes ++ [name]
      _attributeDeclaration :=
        s._attributeDeclaration ++ "attribute " ++ type ++ " " ++ name
          ++ ";\n" }

/-- Modelled from the spec: `NodeMaterialBuildState::_emitFunction` (body not
in the extracted sources); helper functions are registered by name, first
registration wins. -/
def _emitFunction (s : NodeMaterialBuildState) (name code : String) :
    NodeMaterialBuildState :=
  if (s.functions.find? (fun p => p.1 == name)).isSome then s
  else { s with functions := s.functions ++ [(name, code)] }

end NodeMaterialBuildState

namespace NodeMaterialBuildStateSharedData

/-- Modelled from the spec: `NodeMaterialBuildState::_excludeVariableName`
(body not in the extracted sources); records a reserved name in the shared
excluded-name set. -/
def _excludeVariableName (sd : NodeMaterialBuildStateSharedData)
    (name : String) : NodeMaterialBuildStateSharedData :=
  if name ∈ sd.variableNames then sd
  else { sd with variableNames := sd.variableNames ++ [name] }

/-- Modelled from the spec: `NodeMaterialBuildState::_emitVaryingFromString`
(body not in the extracted sources).  The varying registry lives in the
shared data so both stages see one declaration block; a name already
registered is not re-declared (the emission returns `false`), and every
request is recorded so that the cross-stage type-identity assertion can be
checked. -/
def _emitVaryingFromString (sd : NodeMaterialBuildStateSharedData)
    (name : String) (t : NMType) :
    Bool × NodeMaterialBuildStateSharedData :=
  let sd' := { sd with varyingRequests := sd.varyingRequests ++ [(name, t)] }
  if (sd'.varyings.find? (fun p => p.1 == name)).isSome then (false, sd')
  else
    (true,
     { sd' with
       varyings := sd'.varyings ++ [(name, t)]
       varyingDeclaration :=
         sd'.varyingDeclaration ++ "varying "
           ++ NodeMaterialBuildState._getGLType t ++ " " ++ name ++ ";\n" })

end NodeMaterialBuildStateSharedData

/-- A pairwise check that two entries with the same varying name carry the
same type (the Shared Data type-identity assertion of the spec). -/
def typeConsistent (l : List (String × NMType)) : Bool :=
  l.all (fun p => l.all (fun q => p.1 != q.1 || p.2 == q.2))

/-! ## Literal rendering -/

/-- Renders an integer literal. -/
def intLit (i : Int) : String :=
  if i < 0 then "-" ++ decString (-i).toNat else decString i.toNat

/-- Renders an input value as an inline GLSL literal. -/
def renderValue : InputValue → String
  | .scalar v => intLit v
  | .vec2 x y => "vec2(" ++ intLit x ++ ", " ++ intLit y ++ ")"
  | .vec3 x y z =>
      "vec3(" ++ intLit x ++ ", " ++ intLit y ++ ", " ++ intLit z ++ ")"
  | .vec4 x y z w =>
      "vec4(" ++ intLit x ++ ", " ++ intLit y ++ ", " ++ intLit z ++ ", "
        ++ intLit w ++ ")"

/-! ## Connection points

Model of `NodeMaterialConnectionPoint` as used by graph assembly: a typed
port; an input port lists the source types it explicitly accepts through an
implicit conversion (e.g. a scalar broadcast into a vector slot). -/

structure NodeMaterialConnectionPoint where
  name : String
  type : NMType
  acceptedConversions : List NMType := []
  connectedPoint : Option Nat := none
  deriving DecidableEq, Repr

namespace NodeMaterialConnectionPoint

/-- A source of type `src` may feed this point when the types are identical
or the point explicitly declares an implicit conversion from `src`. -/
def isCompatible (p : NodeMaterialConnectionPoint) (src : NMType) : Bool :=
  src == p.type || p.acceptedConversions.contains src

/-- Modelled from the spec: `NodeMaterialConnectionPoint::connectTo` (body
not in the extracted sources).  Fails with `TypeMismatch` unless the source
point's type is identical to, or explicitly convertible to, this point's
declared type; otherwise records the source reference (reconnection silently
replaces the previous source - last write wins, per the design notes). -/
def connectTo (p src : NodeMaterialConnectionPoint) (srcId : Nat) :
    Except BuildError NodeMaterialConnectionPoint :=
  if p.isCompatible src.type then
    Except.ok { p with connectedPoint := some srcId }
  else
    Except.error BuildError.TypeMismatch

end NodeMaterialConnectionPoint

/-! ## Input blocks

Structure follows the `InputBlock` header: a mode field
(`NodeMaterialBlockConnectionPointMode`), an optional system value, a stored
value, an optional value callback that overrides the stored value, and the
associated shader variable name. -/

structure InputBlock where
  name : String
  target : NodeMaterialBlockTargets := NodeMaterialBlockTargets.Vertex
  _type : NMType := NodeMaterialBlockConnectionPointTypes.AutoDetect
  _mode : NodeMaterialBlockConnectionPointMode :=
    NodeMaterialBlockConnectionPointMode.Undefined
  _systemValue : Option NodeMaterialSystemValues := none
  _storedValue : Option InputValue := none
  _valueCallback : Option (Unit → InputValue) := none
  _associatedVariableName : String := ""

namespace InputBlock

/-- `InputBlock::get_isUniform`: the point is sourced from a uniform. -/
def isUniform (b : InputBlock) : Bool :=
  b._mode == NodeMaterialBlockConnectionPointMode.Uniform

/-- `InputBlock::get_isAttribute`: the point is sourced from an attribute. -/
def isAttribute (b : InputBlock) : Bool :=
  b._mode == NodeMaterialBlockConnectionPointMode.Attribute

/-- `InputBlock::get_isVarying`. -/
def isVarying (b : InputBlock) : Bool :=
  b._mode == NodeMaterialBlockConnectionPointMode.Varying

/-- `InputBlock::get_isUndefined`. -/
def isUndefined (b : InputBlock) : Bool :=
  b._mode == NodeMaterialBlockConnectionPointMode.Undefined

/-- `InputBlock::get_isSystemValue`. -/
def isSystemValue (b : InputBlock) : Bool :=
  b._systemValue.isSome

/-- Modelled from the spec: `InputBlock::setAsAttribute` (body not in the
extracted sources).  Marks the point as sourced from a per-vertex attribute,
taking the attribute name when one is given; mutually exclusive with the
other sourcing modes, so the system value is cleared. -/
def setAsAttribute (b : InputBlock) (attributeName : String) : InputBlock :=
  { b with
    name := if attributeName == "" then b.name else attributeName
    _mode := NodeMaterialBlockConnectionPointMode.Attribute
    _systemValue := none
    _associatedVariableName := "" }

/-- Modelled from the spec: `InputBlock::setAsSystemValue` (body not in the
extracted sources).  Binds to a well-known engine-supplied value (system
values are implicitly uniforms), or switches back to a manual uniform value
when `none` is passed; the other sourcing modes are cleared. -/
def setAsSystemValue (b : InputBlock)
    (value : Option NodeMaterialSystemValues) : InputBlock :=
  { b with
    _mode := NodeMaterialBlockConnectionPointMode.Uniform
    _systemValue := value
    _associatedVariableName := "" }

/-- `InputBlock::set_value`: stores a manual value.  The stored value is
ignored whenever a value callback is defined. -/
def set_value (b : InputBlock) (v : InputValue) : InputBlock :=
  { b with _storedValue := some v }

/-- `InputBlock::set_valueCallback`: installs a callback that supplies the
value; the connection point then ignores the stored value property. -/
def set_valueCallback (b : InputBlock) (f : Unit → InputValue) : InputBlock :=
  { b with _valueCallback := some f }

/-- Modelled from the spec: the value a build or transmission actually uses.
The header documents that the stored value is ignored when a value callback
is defined, so the callback result takes priority. -/
def effectiveValue (b : InputBlock) : Option InputValue :=
  match b._valueCallback with
  | some f => some (f ())
  | none => b._storedValue

/-- Modelled from the spec: `InputBlock::_transmit` value selection (body
not in the extracted sources) - the value sent to the effect is the
callback's result when a callback is installed, the stored value otherwise. -/
def _transmitValue (b : InputBlock) : Option InputValue :=
  effectiveValue b

/-- The inline literal a pure constant emits, when the block carries a
value. -/
def constantLiteral (b : InputBlock) : Option String :=
  (effectiveValue b).map renderValue

end InputBlock

/-- The four sourcing modes of the design document. -/
inductive InputSourceKind where
  | attributeSource
  | uniformSource
  | systemValueSource
  | constantSource
  deriving DecidableEq, Repr

/-- How many sourcing modes are active on an input block.  An attribute
sourcing is the `Attribute` mode; a system-value sourcing is a present
system value; a plain uniform and a constant are the `Uniform` mode without
a system value, split by whether the block carries a value. -/
def activeSourceModes (b : InputBlock) : List InputSourceKind :=
  (if b.isAttribute then [InputSourceKind.attributeSource] else [])
    ++ (if b.isSystemValue then [InputSourceKind.systemValueSource] else [])
    ++ (if b.isUniform && !b.isSystemValue && (b.effectiveValue).isNone then
          [InputSourceKind.uniformSource]
        else [])
    ++ (if b.isUniform && !b.isSystemValue && (b.effectiveValue).isSome then
          [InputSourceKind.constantSource]
        else [])

/-- The sourcing-mode setter calls of claim C9. -/
inductive InputAction where
  | asAttribute (name : String)
  | asSystemValue (v : Option NodeMaterialSystemValues)

/-- Applies a sequence of sourcing-mode setter calls. -/
def applyActions (b : InputBlock) : List InputAction → InputBlock
  | [] => b
  | InputAction.asAttribute n :: rest =>
      applyActions (b.setAsAttribute n) rest
  | InputAction.asSystemValue v :: rest =>
      applyActions (b.setAsSystemValue v) rest

/-- Uniform names of system values (engine-assigned semantics). -/
def systemValueName : NodeMaterialSystemValues → String
  | .World => "world"
  | .View => "view"
  | .Projection => "projection"
  | .ViewProjection => "viewProjection"
  | .WorldView => "worldView"
  | .WorldViewProjection => "worldViewProjection"
  | .CameraPosition => "cameraPosition"

/-- Connection point types of system values (matrices for the transforms, a
vector for the camera position). -/
def systemValueType : NodeMaterialSystemValues → NMType
  | .CameraPosition => NodeMaterialBlockConnectionPointTypes.Vector3
  | _ => NodeMaterialBlockConnectionPointTypes.Matrix

/-! ## The block graph

Blocks are polymorphic graph nodes (`NodeMaterialBlock` subtypes): input
blocks, operation blocks, and the vertex/fragment output roots.  Each block
owns its input points; a connection references the source block by id; each
block has at most one output.  The per-build "built" flag of the data model
lives on the block and is reset at the start of every build. -/

/-- An input point of a block: a name, a declared type, an optional
connection (the source block id) and an optional default literal.  An input
with neither a connection nor a default is a missing required input. -/
structure InputPoint where
  name : String
  type : NMType
  connectedPoint : Option Nat := none
  defaultValue : Option String := none

/-- The block subtypes the build pipeline distinguishes. -/
inductive BlockKind where
  | input (ib : InputBlock)
  | operation (op : String)
  | vertexOutput
  | fragmentOutput

/-- A node of the shader computation graph. -/
structure Block where
  id : Nat
  name : String
  target : NodeMaterialBlockTargets
  kind : BlockKind
  inputs : List InputPoint := []
  outputType : Option NMType := none
  isBuilt : Bool := false

/-- The node graph with its designated output roots. -/
structure NodeMaterialGraph where
  blocks : List Block
  vertexRoot : Nat
  fragmentRoot : Nat

/-- Finds a block by id. -/
def findBlock (g : NodeMaterialGraph) (bid : Nat) : Option Block :=
  g.blocks.find? (fun b => b.id == bid)

/-- The ids of the graph's blocks. -/
def blockIds (g : NodeMaterialGraph) : List Nat :=
  g.blocks.map (fun b => b.id)

/-- The connected source ids of a block's inputs. -/
def srcIdsOfBlock (b : Block) : List Nat :=
  b.inputs.filterMap (fun ip => ip.connectedPoint)

/-- The connected source ids of the block with the given id. -/
def srcIds (g : NodeMaterialGraph) (bid : Nat) : List Nat :=
  match findBlock g bid with
  | some b => srcIdsOfBlock b
  | none => []

/-- Dependency edge: block `a` has an input connected to block `b`. -/
def Dep (g : NodeMaterialGraph) (a b : Nat) : Prop :=
  b ∈ srcIds g a

/-- Step 1 of the build algorithm: reset all blocks' built flags. -/
def resetBuildFlags (g : NodeMaterialGraph) : NodeMaterialGraph :=
  { g with blocks := g.blocks.map (fun b => { b with isBuilt := false }) }

/-- Marks a block's persistent built flag. -/
def markBuiltFlag (g : NodeMaterialGraph) (bid : Nat) : NodeMaterialGraph :=
  { g with
    blocks := g.blocks.map
      (fun b => if b.id == bid then { b with isBuilt := true } else b) }

/-! ## The build context and the depth-first build -/

/-- Which stage a pass is building for. -/
inductive StageTag where
  | vertex
  | fragment
  deriving DecidableEq, Repr

/-- The full state of one build invocation: the graph snapshot (whose
persistent built flags the build sets), the two stage build states, the
shared data, the in-progress (gray) marks of the running traversal and the
global emission order trace. -/
structure BuildCtx where
  graph : NodeMaterialGraph
  vx : NodeMaterialBuildState
  fg : NodeMaterialBuildState
  shared : NodeMaterialBuildStateSharedData
  inProgress : List Nat := []
  trace : List Nat := []

/-- The build state of a stage. -/
def stateOf (ctx : BuildCtx) : StageTag → NodeMaterialBuildState
  | StageTag.vertex => ctx.vx
  | StageTag.fragment => ctx.fg

/-- Replaces the build state of a stage. -/
def setState (ctx : BuildCtx) : StageTag → NodeMaterialBuildState → BuildCtx
  | StageTag.vertex, s => { ctx with vx := s }
  | StageTag.fragment, s => { ctx with fg := s }

/-- The stage a block's emission goes to: its own declared target when that
is concrete, the current pass's stage for a block that may run in either. -/
def emitStageOf (pass : StageTag) (b : Block) : StageTag :=
  match b.target with
  | NodeMaterialBlockTargets.Vertex => StageTag.vertex
  | NodeMaterialBlockTargets.Fragment => StageTag.fragment
  | _ => pass

/-- The per-stage built marks. -/
def builtOf (ctx : BuildCtx) (s : StageTag) : List Nat :=
  (stateOf ctx s)._builtBlocks

/-- The generated variable name recorded for a block in a stage ("0" when
absent). -/
def varNameOf (s : NodeMaterialBuildState) (bid : Nat) : String :=
  match s._vnames.find? (fun p => p.1 == bid) with
  | some p => p.2
  | none => "0"

/-- Modelled from the spec: resolution of one input to the GLSL expression
the consumer reads (body not in the extracted sources).  An unconnected
input uses its declared default literal inline.  A connected input reads the
source's generated variable; when a fragment-stage consumer reads a
vertex-stage value, the value is promoted to a varying: the shared data
registers the name/type pairing, the vertex state appends the transfer
assignment, and the consumer reads the varying name. -/
def promoteVarying (ctx : BuildCtx) (sb : Block) (svar : String) :
    String × BuildCtx :=
  let vname := "v_" ++ sb.name
  let t := sb.outputType.getD NodeMaterialBlockConnectionPointTypes.Float
  let r := ctx.shared._emitVaryingFromString vname t
  let ctx' := { ctx with shared := r.2 }
  if r.1 then
    (vname,
     { ctx' with
       vx :=
         { ctx'.vx with
           _varyingTransfer :=
             ctx'.vx._varyingTransfer ++ vname ++ " = " ++ svar ++ ";\n" } })
  else (vname, ctx')

def resolveInput (pass : StageTag) (consumerStage : StageTag)
    (ctx : BuildCtx) (ip : InputPoint) : String × BuildCtx :=
  match ip.connectedPoint with
  | none => (ip.defaultValue.getD "0", ctx)
  | some src =>
    match findBlock ctx.graph src with
    | none => ("0", ctx)
    | some sb =>
      let ses := emitStageOf pass sb
      let svar := varNameOf (stateOf ctx ses) src
      if consumerStage = StageTag.fragment ∧ ses = StageTag.vertex then
        promoteVarying ctx sb svar
      else (svar, ctx)

/-- Resolves all inputs of a block, left to right. -/
def resolveInputs (pass : StageTag) (consumerStage : StageTag) :
    BuildCtx → List InputPoint → List String × BuildCtx
  | ctx, [] => ([], ctx)
  | ctx, ip :: rest =>
    let r := resolveInput pass consumerStage ctx ip
    let rr := resolveInputs pass consumerStage r.2 rest
    (r.1 :: rr.1, rr.2)

/-- Joins expressions with commas. -/
def commaJoin : List String → String
  | [] => ""
  | [x] => x
  | x :: rest => x ++ ", " ++ commaJoin rest

/-- Modelled from the spec: `InputBlock::_emit` (body not in the extracted
sources).  Writes exactly one declaration - attribute, uniform (system
values are implicitly uniforms), varying, or nothing for a pure constant -
into the target stage's build state, deduplicated by name, and records the
variable name dependent blocks read. -/
def emitInputBlock (ctx : BuildCtx) (es : StageTag) (bid : Nat)
    (ib : InputBlock) : BuildCtx :=
  let s := stateOf ctx es
  match ib._mode with
  | NodeMaterialBlockConnectionPointMode.Attribute =>
    let s' := s._emitAttributeFromString ib.name
      (NodeMaterialBuildState._getGLType ib._type)
    setState ctx es { s' with _vnames := (bid, ib.name) :: s'._vnames }
  | NodeMaterialBlockConnectionPointMode.Uniform =>
    match ib._systemValue with
    | some sv =>
      let nm := systemValueName sv
      let s' := s._emitUniformFromString nm
        (NodeMaterialBuildState._getGLType (systemValueType sv))
      setState ctx es { s' with _vnames := (bid, nm) :: s'._vnames }
    | none =>
      match ib.constantLiteral with
      | some lit =>
        setState ctx es { s with _vnames := (bid, lit) :: s._vnames }
      | none =>
        let s' := s._emitUniformFromString ib.name
          (NodeMaterialBuildState._getGLType ib._type)
        setState ctx es { s' with _vnames := (bid, ib.name) :: s'._vnames }
  | NodeMaterialBlockConnectionPointMode.Varying =>
    let r := ctx.shared._emitVaryingFromString ib.name ib._type
    let ctx' := { ctx with shared := r.2 }
    let s := stateOf ctx' es
    setState ctx' es { s with _vnames := (bid, ib.name) :: s._vnames }
  | NodeMaterialBlockConnectionPointMode.Undefined =>
    setState ctx es { s with _vnames := (bid, ib.name) :: s._vnames }

/-- Modelled from the spec: a block's GLSL contribution (the `_buildBlock`
bodies are not in the extracted sources).  Resolves the input expressions,
then emits the block's declarations and statement into its target stage and
records the output variable name. -/
def emitBlock (pass : StageTag) (ctx : BuildCtx) (b : Block)
    (es : StageTag) : BuildCtx :=
  let r := resolveInputs pass es ctx b.inputs
  let ctx := r.2
  match b.kind with
  | BlockKind.input ib => emitInputBlock ctx es b.id ib
  | BlockKind.operation op =>
    let s := stateOf ctx es
    let fr := s._getFreeVariableName b.name
    let t := b.outputType.getD NodeMaterialBlockConnectionPointTypes.Float
    let s' :=
      { fr.2 with
        compilationString :=
          fr.2.compilationString ++ NodeMaterialBuildState._getGLType t
            ++ " " ++ fr.1 ++ " = " ++ op ++ "(" ++ commaJoin r.1 ++ ");\n"
        _vnames := (b.id, fr.1) :: fr.2._vnames }
    setState ctx es s'
  | BlockKind.vertexOutput =>
    let s := stateOf ctx es
    setState ctx es
      { s with
        compilationString :=
          s.compilationString ++ "gl_Position = "
            ++ (r.1.headD "vec4(0)") ++ ";\n" }
  | BlockKind.fragmentOutput =>
    let s := stateOf ctx es
    setState ctx es
      { s with
        compilationString :=
          s.compilationString ++ "gl_FragColor = "
            ++ (r.1.headD "vec4(0)") ++ ";\n" }

/-- Finishes building a block: emits it, marks it built in its emission
stage, appends it to the emission trace, sets the persistent built flag on
the graph node and pops the in-progress mark. -/
def finishBlock (pass : StageTag) (ctx : BuildCtx) (b : Block)
    (es : StageTag) : BuildCtx :=
  let ctx1 := emitBlock pass ctx b es
  let s := stateOf ctx1 es
  let ctx2 := setState ctx1 es
    { s with _builtBlocks := s._builtBlocks ++ [b.id] }
  { ctx2 with
    graph := markBuiltFlag ctx2.graph b.id
    trace := ctx2.trace ++ [b.id]
    inProgress := ctx2.inProgress.tail }

/-- The result of a traversal step: a new context, a build error, or fuel
exhaustion (used only to prove the traversal total). -/
inductive BuildRes where
  | ok (ctx : BuildCtx)
  | err (e : BuildError)
  | timeout

/-- Modelled from the spec: the dependency recursion of `build` over a
block's inputs (bodies not in the extracted sources).  Each connected input
first builds its source block; an input with neither a connection nor a
default fails with `MissingConnection`. -/
def buildListAux (next : BuildCtx → Nat → BuildRes) :
    BuildCtx → List InputPoint → BuildRes
  | ctx, [] => BuildRes.ok ctx
  | ctx, ip :: rest =>
    match ip.connectedPoint with
    | none =>
      if ip.defaultValue.isSome then buildListAux next ctx rest
      else BuildRes.err BuildError.MissingConnection
    | some src =>
      match next ctx src with
      | BuildRes.ok ctx' => buildListAux next ctx' rest
      | r => r

/-- Modelled from the spec: one step of `NodeMaterialBlock::build` (body not
in the extracted sources).  A block already built in its emission stage is a
no-op returning successfully; a block still in progress means the traversal
re-entered it, which fails with `CyclicGraph`; otherwise the block is marked
in progress, its dependencies are built, and the block is emitted. -/
def buildBlockCore (pass : StageTag)
    (recurse : BuildCtx → List InputPoint → BuildRes)
    (ctx : BuildCtx) (bid : Nat) : BuildRes :=
  match findBlock ctx.graph bid with
  | none => BuildRes.err BuildError.MissingConnection
  | some b =>
    let es := emitStageOf pass b
    if bid ∈ builtOf ctx es then BuildRes.ok ctx
    else if bid ∈ ctx.inProgress then BuildRes.err BuildError.CyclicGraph
    else
      match recurse { ctx with inProgress := bid :: ctx.inProgress }
          b.inputs with
      | BuildRes.ok ctx2 => BuildRes.ok (finishBlock pass ctx2 b es)
      | r => r

/-- Modelled from the spec: the depth-first post-order build traversal
(bodies not in the extracted sources), made total by explicit fuel. -/
def buildBlock (pass : StageTag) : Nat → BuildCtx → Nat → BuildRes
  | 0, ctx, bid =>
    buildBlockCore pass (buildListAux (fun _ _ => BuildRes.timeout)) ctx bid
  | fuel + 1, ctx, bid =>
    buildBlockCore pass (buildListAux (buildBlock pass fuel)) ctx bid

/-! ## The full material build -/

/-- The engine capabilities the build consults. -/
structure EngineCaps where
  supportUniformBuffers : Bool := false
  deriving DecidableEq, Repr

/-- Fresh build states and shared data for one build invocation. -/
def mkCtx (g : NodeMaterialGraph) (caps : EngineCaps) : BuildCtx :=
  { graph := g
    vx :=
      { target := NodeMaterialBlockTargets.Vertex
        supportUniformBuffers := caps.supportUniformBuffers }
    fg :=
      { target := NodeMaterialBlockTargets.Fragment
        supportUniformBuffers := caps.supportUniformBuffers }
    shared := {} }

/-- Enough fuel to visit every block once. -/
def canonicalFuel (g : NodeMaterialGraph) : Nat :=
  g.blocks.length + 1

/-- Modelled from the spec: steps 1-3 of the build algorithm - reset the
built flags, create fresh states, then run the fragment pass from the
fragment-output root and the vertex pass from the vertex-output root. -/
def runPasses (g : NodeMaterialGraph) (caps : EngineCaps) : BuildRes :=
  let g0 := resetBuildFlags g
  let ctx0 := mkCtx g0 caps
  match buildBlock StageTag.fragment (canonicalFuel g0) ctx0
      g0.fragmentRoot with
  | BuildRes.ok ctx1 =>
    buildBlock StageTag.vertex (canonicalFuel g0) ctx1 g0.vertexRoot
  | r => r

/-- Rendered text of the extension pragma map. -/
def extensionsText (s : NodeMaterialBuildState) : String :=
  String.join (s.extensions.map (fun p => p.2))

/-- Rendered text of the helper function map. -/
def functionsText (s : NodeMaterialBuildState) : String :=
  String.join (s.functions.map (fun p => p.2))

/-- Modelled from the spec: `NodeMaterialBuildState::finalize` (body not in
the extracted sources).  Concatenates extension pragmas, declarations, the
shared varying declarations, helper functions, then the compiled body and
the varying transfer assignments inside the entry point. -/
def NodeMaterialBuildState.finalize (s : NodeMaterialBuildState)
    (sd : NodeMaterialBuildStateSharedData) : String :=
  extensionsText s ++ s._uniformDeclaration ++ s._samplerDeclaration
    ++ (if s.target == NodeMaterialBlockTargets.Vertex then
          s._attributeDeclaration
        else "")
    ++ sd.varyingDeclaration ++ functionsText s ++ "void main()\n"
    ++ s.compilationString ++ s._varyingTransfer

/-- The artifacts of a successful build: the two shader sources, the
binding table, the varying registry, the per-stage emission orders and the
graph snapshot with its built flags set. -/
structure NodeMaterialBuildResult where
  vertexSource : String
  fragmentSource : String
  attributes : List String
  uniforms : List String
  samplers : List String
  uniformBuffers : List String
  varyings : List (String × NMType)
  varyingDeclaration : String
  vertexBuilt : List Nat
  fragmentBuilt : List Nat
  graph : NodeMaterialGraph

/-- Assembles the final result from a finished context (step 5). -/
def assemble (ctx : BuildCtx) : NodeMaterialBuildResult :=
  { vertexSource := ctx.vx.finalize ctx.shared
    fragmentSource := ctx.fg.finalize ctx.shared
    attributes := ctx.vx.attributes
    uniforms := ctx.vx.uniforms ++ ctx.fg.uniforms
    samplers := ctx.vx.samplers ++ ctx.fg.samplers
    uniformBuffers :=
      if ctx.vx.supportUniformBuffers then ctx.vx.uniforms ++ ctx.fg.uniforms
      else []
    varyings := ctx.shared.varyings
    varyingDeclaration := ctx.shared.varyingDeclaration
    vertexBuilt := ctx.vx._builtBlocks
    fragmentBuilt := ctx.fg._builtBlocks
    graph := ctx.graph }

/-- Outcome of a material build. -/
inductive BuildOutcome where
  | ok (r : NodeMaterialBuildResult)
  | err (e : BuildError)
  | timeout

/-- `true` exactly on a successful outcome. -/
def BuildOutcome.isOk : BuildOutcome → Bool
  | BuildOutcome.ok _ => true
  | _ => false

/-- The two generated sources of a successful outcome. -/
def BuildOutcome.sources : BuildOutcome → Option (String × String)
  | BuildOutcome.ok r => some (r.vertexSource, r.fragmentSource)
  | _ => none

/-- The graph snapshot a successful outcome returns. -/
def BuildOutcome.graphOut : BuildOutcome → Option NodeMaterialGraph
  | BuildOutcome.ok r => some r.graph
  | _ => none

/-- Modelled from the spec: the whole build - the two passes, then the
cross-stage varying type-identity assertion (`VaryingTypeConflict` on
mismatch), then finalization of both stages. -/
def buildMaterial (g : NodeMaterialGraph) (caps : EngineCaps) :
    BuildOutcome :=
  match runPasses g caps with
  | BuildRes.ok ctx =>
    if typeConsistent ctx.shared.varyingRequests then
      BuildOutcome.ok (assemble ctx)
    else BuildOutcome.err BuildError.VaryingTypeConflict
  | BuildRes.err e => BuildOutcome.err e
  | BuildRes.timeout => BuildOutcome.timeout

/-! ## Serialization

The graph serializes to a structured JSON-like document: one record per
block capturing the class-name tag, the block's name and configuration
values, and the connection endpoints by stable id.  Deserialization rebuilds
the graph through a registry keyed by the class-name tag.  Runtime value
callbacks are not part of the document, and built flags restart cleared. -/

/-- The class-name string serialized for a block
(`NodeMaterialBlock::getClassName`). -/
def Block.getClassName (b : Block) : String :=
  match b.kind with
  | BlockKind.input _ => "InputBlock"
  | BlockKind.operation _ => "OperationBlock"
  | BlockKind.vertexOutput => "VertexOutputBlock"
  | BlockKind.fragmentOutput => "FragmentOutputBlock"

/-- A serialized input point. -/
structure SerializedInput where
  name : String
  type : NMType
  connectedPoint : Option Nat
  defaultValue : Option String
  deriving DecidableEq, Repr

/-- A serialized block record (a JSON-like object): class tag, identity,
configuration values and connections. -/
structure SerializedBlock where
  customType : String
  id : Nat
  name : String
  target : NodeMaterialBlockTargets
  inputs : List SerializedInput
  outputType : Option NMType
  mode : NodeMaterialBlockConnectionPointMode
  systemValue : Option NodeMaterialSystemValues
  storedValue : Option InputValue
  ptype : NMType
  ibTarget : NodeMaterialBlockTargets
  ibName : String
  associatedVariableName : String
  opName : String
  deriving DecidableEq, Repr

/-- The serialized graph document. -/
structure SerializedGraph where
  blocks : List SerializedBlock
  vertexRoot : Nat
  fragmentRoot : Nat
  deriving DecidableEq, Repr

/-- Serializes one input point. -/
def serializeInput (ip : InputPoint) : SerializedInput :=
  { name := ip.name
    type := ip.type
    connectedPoint := ip.connectedPoint
    defaultValue := ip.defaultValue }

/-- Modelled from the spec: `serialize` of the block subtypes
(`InputBlock::serialize` and the generic block serialization; bodies not in
the extracted sources). -/
def serializeBlock (b : Block) : SerializedBlock :=
  let base : SerializedBlock :=
    { customType := b.getClassName
      id := b.id
      name := b.name
      target := b.target
      inputs := b.inputs.map serializeInput
      outputType := b.outputType
      mode := NodeMaterialBlockConnectionPointMode.Undefined
      systemValue := none
      storedValue := none
      ptype := NodeMaterialBlockConnectionPointTypes.AutoDetect
      ibTarget := NodeMaterialBlockTargets.Vertex
      ibName := ""
      associatedVariableName := ""
      opName := "" }
  match b.kind with
  | BlockKind.input ib =>
    { base with
      mode := ib._mode
      systemValue := ib._systemValue
      storedValue := ib._storedValue
      ptype := ib._type
      ibTarget := ib.target
      ibName := ib.name
      associatedVariableName := ib._associatedVariableName }
  | BlockKind.operation op => { base with opName := op }
  | BlockKind.vertexOutput => base
  | BlockKind.fragmentOutput => base

/-- Serializes the graph. -/
def serializeGraph (g : NodeMaterialGraph) : SerializedGraph :=
  { blocks := g.blocks.map serializeBlock
    vertexRoot := g.vertexRoot
    fragmentRoot := g.fragmentRoot }

/-- The deserialization registry: maps a stable class-name tag to the
constructor rebuilding that block kind from its record, validated at load
time against the known set. -/
def blockRegistry (tag : String) : Option (SerializedBlock → BlockKind) :=
  if tag == "InputBlock" then
    some (fun sb =>
      BlockKind.input
        { name := sb.ibName
          target := sb.ibTarget
          _type := sb.ptype
          _mode := sb.mode
          _systemValue := sb.systemValue
          _storedValue := sb.storedValue
          _valueCallback := none
          _associatedVariableName := sb.associatedVariableName })
  else if tag == "OperationBlock" then
    some (fun sb => BlockKind.operation sb.opName)
  else if tag == "VertexOutputBlock" then
    some (fun _ => BlockKind.vertexOutput)
  else if tag == "FragmentOutputBlock" then
    some (fun _ => BlockKind.fragmentOutput)
  else none

/-- Deserializes one input point. -/
def deserializeInput (si : SerializedInput) : InputPoint :=
  { name := si.name
    type := si.type
    connectedPoint := si.connectedPoint
    defaultValue := si.defaultValue }

/-- Modelled from the spec: `_deserialize` of the block subtypes (bodies
not in the extracted sources); the class tag is resolved through the
registry and the record's configuration is restored, with the built flag
cleared. -/
def deserializeBlock (sb : SerializedBlock) : Option Block :=
  (blockRegistry sb.customType).map
    (fun mk =>
      { id := sb.id
        name := sb.name
        target := sb.target
        kind := mk sb
        inputs := sb.inputs.map deserializeInput
        outputType := sb.outputType
        isBuilt := false })

/-- Deserializes the graph document; fails when a class tag is unknown. -/
def deserializeGraph (sg : SerializedGraph) : Option NodeMaterialGraph :=
  (sg.blocks.mapM deserializeBlock).map
    (fun bs =>
      { blocks := bs
        vertexRoot := sg.vertexRoot
        fragmentRoot := sg.fragmentRoot })

/-- No block of the graph carries a runtime value callback (callbacks are
not serializable). -/
def noCallbacks (g : NodeMaterialGraph) : Bool :=
  g.blocks.all
    (fun b =>
      match b.kind with
      | BlockKind.input ib => ib._valueCallback.isNone
      | _ => true)

/-! ## Well-formedness, cycles, and the traversal invariants -/

/-- Every root names an existing block, and every input of every block is
either connected to an existing block or carries a default literal. -/
def wellFormed (g : NodeMaterialGraph) : Bool :=
  decide (g.vertexRoot ∈ blockIds g)
    && decide (g.fragmentRoot ∈ blockIds g)
    && g.blocks.all
      (fun b =>
        b.inputs.all
          (fun ip =>
            match ip.connectedPoint with
            | some s => decide (s ∈ blockIds g)
            | none => ip.defaultValue.isSome))

/-- Some block reachable from `root` along dependency edges lies on a
dependency cycle. -/
def cycleReachable (g : NodeMaterialGraph) (root : Nat) : Prop :=
  ∃ b, Relation.ReflTransGen (Dep g) root b ∧ Relation.TransGen (Dep g) b b

/-- Some block's input is connected, directly or transitively, to one of
that same block's outputs. -/
def hasCycle (g : NodeMaterialGraph) : Prop :=
  ∃ b, Relation.TransGen (Dep g) b b

/-- The emission trace is in dependency order: wherever a block appears,
all its connected sources appear strictly earlier. -/
def TopoList (g : NodeMaterialGraph) (l : List Nat) : Prop :=
  ∀ pre b post, l = pre ++ b :: post → ∀ q ∈ srcIds g b, q ∈ pre

/-- Index of the first occurrence of an element. -/
def firstIdx : List Nat → Nat → Nat
  | [], _ => 0
  | x :: xs, a => if x = a then 0 else firstIdx xs a + 1

/-- The traversal invariant: built marks are recorded in the trace, the
trace is in dependency order, the per-stage built lists have no
duplicates, and the varying registry has no duplicate names. -/
def BuildInv (ctx : BuildCtx) : Prop :=
  (∀ s, builtOf ctx s ⊆ ctx.trace)
    ∧ TopoList ctx.graph ctx.trace
    ∧ (∀ s, (builtOf ctx s).Nodup)
    ∧ (ctx.shared.varyings.map Prod.fst).Nodup

/-- What one successful traversal step guarantees: the graph changed only
in built flags, the in-progress marks are restored, the trace and the
per-stage built lists grow by suffixing, every newly built block was not in
progress at entry, and the invariant is preserved. -/
def OkStep (ctx ctx' : BuildCtx) : Prop :=
  resetBuildFlags ctx'.graph = resetBuildFlags ctx.graph
    ∧ ctx'.inProgress = ctx.inProgress
    ∧ ctx.trace <+: ctx'.trace
    ∧ (∀ s, builtOf ctx s <+: builtOf ctx' s)
    ∧ (∀ s x, x ∈ builtOf ctx' s → x ∈ builtOf ctx s ∨ x ∉ ctx.inProgress)
    ∧ (BuildInv ctx → BuildInv ctx')

/-- The gray (in-progress) stack is a dependency chain: each entry depends
on the entry pushed on top of it. -/
def chainOK (g : NodeMaterialGraph) (l : List Nat) : Prop :=
  List.Chain' (fun x y => Dep g y x) l

/-- The number of graph blocks not marked in progress; the fuel the
traversal may still consume. -/
def unmarkedCount (ctx : BuildCtx) : Nat :=
  ((blockIds ctx.graph).filter (fun i => !(ctx.inProgress.contains i))).length

/-- Removes decimal digits; two sources that differ only in generated
variable-name numbering agree after this erasure. -/
def stripDigits (s : String) : String :=
  String.mk (s.data.filter (fun c => !(Char.isDigit c)))

/-! ## Concrete example material: the spec section 8 scenario graph -/

/-- Attribute input block `position` (vec3). -/
def exPos : Block :=
  { id := 1
    name := "position"
    target := NodeMaterialBlockTargets.Vertex
    kind := BlockKind.input
      { name := "position"
        target := NodeMaterialBlockTargets.Vertex
        _type := NodeMaterialBlockConnectionPointTypes.Vector3
        _mode := NodeMaterialBlockConnectionPointMode.Attribute }
    outputType := some NodeMaterialBlockConnectionPointTypes.Vector3 }

/-- System-value input block bound to the world-view-projection matrix. -/
def exWvp : Block :=
  { id := 2
    name := "wvp"
    target := NodeMaterialBlockTargets.Vertex
    kind := BlockKind.input
      { name := "wvp"
        target := NodeMaterialBlockTargets.Vertex
        _type := NodeMaterialBlockConnectionPointTypes.Matrix
        _mode := NodeMaterialBlockConnectionPointMode.Uniform
        _systemValue := some NodeMaterialSystemValues.WorldViewProjection }
    outputType := some NodeMaterialBlockConnectionPointTypes.Matrix }

/-- Operation block transforming the position by the matrix. -/
def exXform : Block :=
  { id := 3
    name := "xform"
    target := NodeMaterialBlockTargets.Vertex
    kind := BlockKind.operation "transform"
    inputs :=
      [{ name := "p"
         type := NodeMaterialBlockConnectionPointTypes.Vector3
         connectedPoint := some 1 },
       { name := "m"
         type := NodeMaterialBlockConnectionPointTypes.Matrix
         connectedPoint := some 2 }]
    outputType := some NodeMaterialBlockConnectionPointTypes.Vector4 }

/-- The vertex-output root. -/
def exVOut : Block :=
  { id := 4
    name := "vertexOutput"
    target := NodeMaterialBlockTargets.Vertex
    kind := BlockKind.vertexOutput
    inputs :=
      [{ name := "vector"
         type := NodeMaterialBlockConnectionPointTypes.Vector4
         connectedPoint := some 3 }] }

/-- The fragment-output root, consuming the vertex-computed transform (a
cross-stage read that becomes a varying). -/
def exFOut : Block :=
  { id := 5
    name := "fragmentOutput"
    target := NodeMaterialBlockTargets.Fragment
    kind := BlockKind.fragmentOutput
    inputs :=
      [{ name := "rgba"
         type := NodeMaterialBlockConnectionPointTypes.Vector4
         connectedPoint := some 3 }] }

/-- The example graph of spec section 8. -/
def exGraph : NodeMaterialGraph :=
  { blocks := [exPos, exWvp, exXform, exVOut, exFOut]
    vertexRoot := 4
    fragmentRoot := 5 }

/-- Default capabilities for examples. -/
def exCaps : EngineCaps := {}

/-! ## Example material for the cycle claims -/

/-- A vertex-output root whose input falls back to a default literal. -/
def cyVOut : Block :=
  { id := 1
    name := "vertexOutput"
    target := NodeMaterialBlockTargets.Vertex
    kind := BlockKind.vertexOutput
    inputs :=
      [{ name := "vector"
         type := NodeMaterialBlockConnectionPointTypes.Vector4
         defaultValue := some "vec4(0)" }] }

/-- A fragment-output root whose input falls back to a default literal. -/
def cyFOut : Block :=
  { id := 2
    name := "fragmentOutput"
    target := NodeMaterialBlockTargets.Fragment
    kind := BlockKind.fragmentOutput
    inputs :=
      [{ name := "rgba"
         type := NodeMaterialBlockConnectionPointTypes.Vector4
         defaultValue := some "vec4(0)" }] }

/-- Operation block `cyA`, connected to `cyB` - one half of a cycle. -/
def cyA : Block :=
  { id := 3
    name := "cyA"
    target := NodeMaterialBlockTargets.Fragment
    kind := BlockKind.operation "addA"
    inputs :=
      [{ name := "x"
         type := NodeMaterialBlockConnectionPointTypes.Float
         connectedPoint := some 4 }]
    outputType := some NodeMaterialBlockConnectionPointTypes.Float }

/-- Operation block `cyB`, connected back to `cyA`. -/
def cyB : Block :=
  { id := 4
    name := "cyB"
    target := NodeMaterialBlockTargets.Fragment
    kind := BlockKind.operation "addB"
    inputs :=
      [{ name := "x"
         type := NodeMaterialBlockConnectionPointTypes.Float
         connectedPoint := some 3 }]
    outputType := some NodeMaterialBlockConnectionPointTypes.Float }

/-- A graph with a dependency cycle (`cyA` and `cyB` feed each other) that
is unreachable from either output root. -/
def exCycUnreachable : NodeMaterialGraph :=
  { blocks := [cyVOut, cyFOut, cyA, cyB]
    vertexRoot := 1
    fragmentRoot := 2 }

/-- A fragment-output root connected into the cycle. -/
def cyFOutReach : Block :=
  { id := 2
    name := "fragmentOutput"
    target := NodeMaterialBlockTargets.Fragment
    kind := BlockKind.fragmentOutput
    inputs :=
      [{ name := "rgba"
         type := NodeMaterialBlockConnectionPointTypes.Float
         connectedPoint := some 3 }] }

/-- A graph whose fragment root reaches the `cyA`/`cyB` cycle. -/
def exCycReachable : NodeMaterialGraph :=
  { blocks := [cyVOut, cyFOutReach, cyA, cyB]
    vertexRoot := 1
    fragmentRoot := 2 }

/-! ## Example material for the varying conflict claim -/

/-- A vertex-stage varying input block named `foo` typed vec3. -/
def vcFooV : Block :=
  { id := 1
    name := "foo"
    target := NodeMaterialBlockTargets.Vertex
    kind := BlockKind.input
      { name := "foo"
        target := NodeMaterialBlockTargets.Vertex
        _type := NodeMaterialBlockConnectionPointTypes.Vector3
        _mode := NodeMaterialBlockConnectionPointMode.Varying }
    outputType := some NodeMaterialBlockConnectionPointTypes.Vector3 }

/-- A fragment-stage varying input block also named `foo` but typed vec4. -/
def vcFooF : Block :=
  { id := 2
    name := "foo"
    target := NodeMaterialBlockTargets.Fragment
    kind := BlockKind.input
      { name := "foo"
        target := NodeMaterialBlockTargets.Fragment
        _type := NodeMaterialBlockConnectionPointTypes.Vector4
        _mode := NodeMaterialBlockConnectionPointMode.Varying }
    outputType := some NodeMaterialBlockConnectionPointTypes.Vector4 }

/-- Vertex root consuming the vertex-side `foo`. -/
def vcVOut : Block :=
  { id := 3
    name := "vertexOutput"
    target := NodeMaterialBlockTargets.Vertex
    kind := BlockKind.vertexOutput
    inputs :=
      [{ name := "vector"
         type := NodeMaterialBlockConnectionPointTypes.Vector4
         connectedPoint := some 1 }] }

/-- Fragment root consuming the fragment-side `foo`. -/
def vcFOut : Block :=
  { id := 4
    name := "fragmentOutput"
    target := NodeMaterialBlockTargets.Fragment
    kind := BlockKind.fragmentOutput
    inputs :=
      [{ name := "rgba"
         type := NodeMaterialBlockConnectionPointTypes.Vector4
         connectedPoint := some 2 }] }

/-- A graph declaring the varying `foo` as vec3 in the vertex stage and
vec4 in the fragment stage. -/
def exVaryConflict : NodeMaterialGraph :=
  { blocks := [vcFooV, vcFooF, vcVOut, vcFOut]
    vertexRoot := 3
    fragmentRoot := 4 }

/-! ## Example material for the serialization claim -/

/-- A constant input block whose value callback overrides its stored
value. -/
def cbConst : Block :=
  { id := 1
    name := "k"
    target := NodeMaterialBlockTargets.Fragment
    kind := BlockKind.input
      { name := "k"
        target := NodeMaterialBlockTargets.Fragment
        _type := NodeMaterialBlockConnectionPointTypes.Vector4
        _mode := NodeMaterialBlockConnectionPointMode.Uniform
        _storedValue := some (InputValue.scalar 3)
        _valueCallback := some (fun _ => InputValue.vec4 1 2 3 4) }
    outputType := some NodeMaterialBlockConnectionPointTypes.Vector4 }

/-- Fragment root consuming the callback-driven constant. -/
def cbFOut : Block :=
  { id := 2
    name := "fragmentOutput"
    target := NodeMaterialBlockTargets.Fragment
    kind := BlockKind.fragmentOutput
    inputs :=
      [{ name := "rgba"
         type := NodeMaterialBlockConnectionPointTypes.Vector4
         connectedPoint := some 1 }] }

/-- A vertex-output root with a defaulted input, id 3. -/
def cbVOut : Block :=
  { id := 3
    name := "vertexOutput"
    target := NodeMaterialBlockTargets.Vertex
    kind := BlockKind.vertexOutput
    inputs :=
      [{ name := "vector"
         type := NodeMaterialBlockConnectionPointTypes.Vector4
         defaultValue := some "vec4(0)" }] }

/-- A graph with a callback-driven constant input. -/
def exCallbackGraph : NodeMaterialGraph :=
  { blocks := [cbConst, cbFOut, cbVOut]
    vertexRoot := 3
    fragmentRoot := 2 }

/-- What the callback graph round-trips to: the callback is gone, the
stored value remains. -/
def exCallbackGraphRound : NodeMaterialGraph :=
  { blocks :=
      [{ cbConst with
         kind := BlockKind.input
           { name := "k"
             target := NodeMaterialBlockTargets.Fragment
             _type := NodeMaterialBlockConnectionPointTypes.Vector4
             _mode := NodeMaterialBlockConnectionPointMode.Uniform
             _storedValue := some (InputValue.scalar 3)
             _valueCallback := none } },
       cbFOut, cbVOut]
    vertexRoot := 3
    fragmentRoot := 2 }

/-! ## Example material for the connection point claim -/

/-- A scalar-only input point. -/
def cpScalarIn : NodeMaterialConnectionPoint :=
  { name := "factor", type := NodeMaterialBlockConnectionPointTypes.Float }

/-- A three-component vector output point. -/
def cpVec3Out : NodeMaterialConnectionPoint :=
  { name := "color", type := NodeMaterialBlockConnectionPointTypes.Vector3 }

/-- A vector input point declaring an implicit scalar broadcast. -/
def cpBroadcastIn : NodeMaterialConnectionPoint :=
  { name := "scale"
    type := NodeMaterialBlockConnectionPointTypes.Vector3
    acceptedConversions := [NodeMaterialBlockConnectionPointTypes.Float] }

/-- A scalar output point. -/
def cpFloatOut : NodeMaterialConnectionPoint :=
  { name := "x", type := NodeMaterialBlockConnectionPointTypes.Float }

/-! ## Example material for the input block claims -/

/-- A fresh vertex build state. -/
def freshVertexState : NodeMaterialBuildState :=
  { target := NodeMaterialBlockTargets.Vertex }

/-- A plain input block. -/
def ibExample : InputBlock :=
  { name := "myInput" }

/-- An input block with both a stored value and a value callback. -/
def ibWithCallback : InputBlock :=
  { name := "c"
    _storedValue := some (InputValue.scalar 3)
    _valueCallback := some (fun _ => InputValue.scalar 7) }

/-- Threads a sequence of free-name requests through a build state,
collecting the allocated names in order. -/
def allocNames (s : NodeMaterialBuildState) :
    List String → List String × NodeMaterialBuildState
  | [] => ([], s)
  | p :: ps =>
    let r := s._getFreeVariableName p
    let rr := allocNames r.2 ps
    (r.1 :: rr.1, rr.2)

/-! ## Accessors and fixtures for claim statements -/

/-- A mid-build context over the example graph in which the fragment root
has already been emitted in the fragment stage. -/
def exCtxBuilt : BuildCtx :=
  let c := mkCtx exGraph exCaps
  setState c StageTag.fragment
    { stateOf c StageTag.fragment with _builtBlocks := [5] }

/-- The vertex-stage emission order of an outcome (a duplicated dummy list
on failure, so the projection is informative only on success). -/
def BuildOutcome.vertexBuiltOf : BuildOutcome → List Nat
  | BuildOutcome.ok r => r.vertexBuilt
  | _ => [1, 1]

/-- The fragment-stage emission order of an outcome (a duplicated dummy
list on failure). -/
def BuildOutcome.fragmentBuiltOf : BuildOutcome → List Nat
  | BuildOutcome.ok r => r.fragmentBuilt
  | _ => [1, 1]

/-- `seg` occurs contiguously inside `s`. -/
def containsSeg (s seg : String) : Prop :=
  ∃ p q, s = p ++ seg ++ q

/-- The context a successful traversal returns. -/
def BuildRes.ctxOut : BuildRes → Option BuildCtx
  | BuildRes.ok ctx => some ctx
  | _ => none

/-- The vertex source of an outcome (empty on failure). -/
def BuildOutcome.vsrcOf : BuildOutcome → String
  | BuildOutcome.ok r => r.vertexSource
  | _ => ""

/-- The fragment source of an outcome (empty on failure). -/
def BuildOutcome.fsrcOf : BuildOutcome → String
  | BuildOutcome.ok r => r.fragmentSource
  | _ => ""

/-- The varying declaration text of an outcome (a non-occurring dummy on
failure). -/
def BuildOutcome.varyingDeclOf : BuildOutcome → String
  | BuildOutcome.ok r => r.varyingDeclaration
  | _ => "missing"

/-!
# Proofs

All definitions precede this point; everything below is a theorem.
-/

/-! ## Decimal rendering -/

theorem decCharsAux_irrel :
    ∀ f g n, n < f → n < g → decCharsAux f n = decCharsAux g n := by
  intro f
  induction f with
  | zero => intro g n hf; omega
  | succ f ih =>
    intro g n hf hg
    cases g with
    | zero => omega
    | succ g =>
      by_cases h : n < 10
      · simp [decCharsAux, h]
      · have hd : n / 10 < n := Nat.div_lt_self (by omega) (by omega)
        simp only [decCharsAux, h, if_false, ite_false]
        rw [ih g (n / 10) (by omega) (by omega)]

theorem decChars_lt (n : Nat) (h : n < 10) :
    decChars n = [Nat.digitChar n] := by
  simp [decChars, decCharsAux, h]

theorem decChars_ge (n : Nat) (h : ¬ n < 10) :
    decChars n = decChars (n / 10) ++ [Nat.digitChar (n % 10)] := by
  have hd : n / 10 < n := Nat.div_lt_self (by omega) (by omega)
  show decCharsAux (n + 1) n = decCharsAux (n / 10 + 1) (n / 10) ++ _
  rw [show decCharsAux (n + 1) n
        = if n < 10 then [Nat.digitChar n]
          else decCharsAux n (n / 10) ++ [Nat.digitChar (n % 10)] from rfl]
  simp only [h, ite_false]
  rw [decCharsAux_irrel n (n / 10 + 1) (n / 10) (by omega) (by omega)]

theorem decChars_ne_nil (n : Nat) : decChars n ≠ [] := by
  by_cases h : n < 10
  · rw [decChars_lt n h]
    simp
  · rw [decChars_ge n h]
    simp

theorem digitChar_inj_lt (a b : Nat) (ha : a < 10) (hb : b < 10)
    (h : Nat.digitChar a = Nat.digitChar b) : a = b := by
  interval_cases a <;> interval_cases b <;> simp_all [Nat.digitChar]

theorem decChars_length_one (n : Nat) (h : n < 10) :
    (decChars n).length = 1 := by
  rw [decChars_lt n h]
  simp

theorem decChars_length_ge_two (n : Nat) (h : ¬ n < 10) :
    2 ≤ (decChars n).length := by
  rw [decChars_ge n h]
  simp only [List.length_append, List.length_cons, List.length_nil]
  have := decChars_ne_nil (n / 10)
  have : 0 < (decChars (n / 10)).length := List.length_pos.mpr this
  omega

theorem decChars_inj : ∀ m n : Nat, decChars m = decChars n → m = n := by
  intro m
  induction m using Nat.strong_induction_on with
  | _ m ih =>
    intro n h
    by_cases hm : m < 10
    · by_cases hn : n < 10
      · rw [decChars_lt m hm, decChars_lt n hn] at h
        simp only [List.cons.injEq, and_true] at h
        exact digitChar_inj_lt m n hm hn h
      · have h1 := decChars_length_one m hm
        have h2 := decChars_length_ge_two n hn
        rw [h] at h1
        omega
    · by_cases hn : n < 10
      · have h1 := decChars_length_one n hn
        have h2 := decChars_length_ge_two m hm
        rw [h] at h2
        omega
      · rw [decChars_ge m hm, decChars_ge n hn] at h
        have h' := congrArg List.reverse h
        simp only [List.reverse_append, List.reverse_cons,
          List.reverse_nil, List.nil_append, List.singleton_append,
          List.cons.injEq] at h'
        obtain ⟨hd, ht⟩ := h'
        have htl : decChars (m / 10) = decChars (n / 10) := by
          have := congrArg List.reverse ht
          simpa using this
        have hdiv : m / 10 = n / 10 :=
          ih (m / 10) (Nat.div_lt_self (by omega) (by omega)) _ htl
        have hmod : m % 10 = n % 10 :=
          digitChar_inj_lt _ _ (Nat.mod_lt _ (by omega))
            (Nat.mod_lt _ (by omega)) hd
        omega

theorem decString_inj (m n : Nat) (h : decString m = decString n) : m = n := by
  apply decChars_inj
  have := congrArg String.data h
  simpa [decString] using this

/-! ## The free-name allocator (claim C6) -/

theorem lookupCounter_alloc (s : NodeMaterialBuildState) (q p : String) :
    lookupCounter ((s._getFreeVariableName q).2).counters p
      = if p = q then lookupCounter s.counters p + 1
        else lookupCounter s.counters p := by
  simp only [NodeMaterialBuildState._getFreeVariableName, lookupCounter]
  split <;> simp_all

theorem lookupCounter_alloc_le (s : NodeMaterialBuildState) (q p : String) :
    lookupCounter s.counters p
      ≤ lookupCounter ((s._getFreeVariableName q).2).counters p := by
  rw [lookupCounter_alloc]
  split <;> omega

/-- The name allocated at any position has the shape
`prefix ++ "_" ++ counter`, with the counter at least the state's counter
for that prefix at the start of the sequence. -/
theorem allocNames_shape (ps : List String) :
    ∀ (s : NodeMaterialBuildState) (j : Nat) (p : String),
      ps[j]? = some p →
      ∃ c, (allocNames s ps).1[j]? = some (p ++ "_" ++ decString c)
        ∧ lookupCounter s.counters p ≤ c := by
  induction ps with
  | nil => intro s j p h; simp at h
  | cons q ps ih =>
    intro s j p h
    cases j with
    | zero =>
      simp only [List.getElem?_cons_zero, Option.some.injEq] at h
      subst h
      refine ⟨lookupCounter s.counters q, ?_, le_refl _⟩
      simp [allocNames, NodeMaterialBuildState._getFreeVariableName]
    | succ j =>
      simp only [List.getElem?_cons_succ] at h
      obtain ⟨c, hc, hle⟩ := ih (s._getFreeVariableName q).2 j p h
      refine ⟨c, ?_, ?_⟩
      · simpa [allocNames] using hc
      · exact le_trans (lookupCounter_alloc_le s q p) hle

/-- Two allocations of the same prefix receive strictly increasing
counters. -/
theorem allocNames_strict (ps : List String) :
    ∀ (s : NodeMaterialBuildState) (i j : Nat) (p : String),
      i < j → ps[i]? = some p → ps[j]? = some p →
      ∃ ci cj,
        (allocNames s ps).1[i]? = some (p ++ "_" ++ decString ci)
          ∧ (allocNames s ps).1[j]? = some (p ++ "_" ++ decString cj)
          ∧ ci < cj := by
  induction ps with
  | nil => intro s i j p hij hi hj; simp at hi
  | cons q ps ih =>
    intro s i j p hij hi hj
    cases j with
    | zero => omega
    | succ j =>
      simp only [List.getElem?_cons_succ] at hj
      cases i with
      | zero =>
        simp only [List.getElem?_cons_zero, Option.some.injEq] at hi
        subst hi
        obtain ⟨cj, hcj, hle⟩ :=
          allocNames_shape ps (s._getFreeVariableName q).2 j q hj
        refine ⟨lookupCounter s.counters q, cj, ?_, ?_, ?_⟩
        · simp [allocNames, NodeMaterialBuildState._getFreeVariableName]
        · simpa [allocNames] using hcj
        · have := lookupCounter_alloc s q q
          simp at this
          omega
      | succ i =>
        simp only [List.getElem?_cons_succ] at hi
        obtain ⟨ci, cj, h1, h2, h3⟩ :=
          ih (s._getFreeVariableName q).2 i j p (by omega) hi hj
        exact ⟨ci, cj, by simpa [allocNames] using h1,
          by simpa [allocNames] using h2, h3⟩

theorem prefixed_decString_inj (p : String) (a b : Nat)
    (h : p ++ "_" ++ decString a = p ++ "_" ++ decString b) : a = b := by
  apply decChars_inj
  have hd := congrArg String.data h
  simp only [String.data_append] at hd
  have hd' := List.append_cancel_left hd
  simpa [decString] using hd'

/-- Claim C6: within a single build, the free-name allocator never returns
the same variable name twice for a given prefix: each request suffixes a
monotonically increasing per-prefix counter, so any two allocations of the
same prefix in one allocation sequence yield distinct names. -/
theorem getFreeVariableName_unique (s : NodeMaterialBuildState)
    (ps : List String) (i j : Nat) (p : String) (a b : String)
    (hij : i < j) (hi : ps[i]? = some p) (hj : ps[j]? = some p)
    (ha : (allocNames s ps).1[i]? = some a)
    (hb : (allocNames s ps).1[j]? = some b) : a ≠ b := by
  obtain ⟨ci, cj, h1, h2, h3⟩ := allocNames_strict ps s i j p hij hi hj
  rw [ha] at h1
  rw [hb] at h2
  intro hab
  apply absurd h3
  simp only [Option.some.injEq] at h1 h2
  have : ci = cj := by
    apply prefixed_decString_inj p
    rw [← h1, ← h2, hab]
  omega

/-- Witness for C6: allocating `uv` twice, around an unrelated `color`
allocation, yields `uv_0` and `uv_1`, which differ. -/
theorem getFreeVariableName_unique_witness :
    (0 : Nat) < 2
      ∧ (["uv", "color", "uv"] : List String)[0]? = some "uv"
      ∧ (["uv", "color", "uv"] : List String)[2]? = some "uv"
      ∧ (allocNames freshVertexState ["uv", "color", "uv"]).1[0]?
          = some "uv_0"
      ∧ (allocNames freshVertexState ["uv", "color", "uv"]).1[2]?
          = some "uv_1"
      ∧ "uv_0" ≠ "uv_1" := by
  refine ⟨by omega, by decide, by decide, by decide, by decide, ?_⟩
  exact getFreeVariableName_unique freshVertexState ["uv", "color", "uv"]
    0 2 "uv" "uv_0" "uv_1" (by omega) (by decide) (by decide)
    (by decide) (by decide)

/-! ## Declaration emission (claim C7) -/

/-- Claim C7: emitting the same logical input declaration twice in a single
build leaves the declaration state unchanged on the second emission and is
not an error; fresh names are appended in insertion (first-declared) order,
so the declaration lists keep insertion order with duplicates suppressed by
name.  Stated for uniform and attribute emission. -/
theorem emit_declaration_idempotent :
    (∀ (s : NodeMaterialBuildState) (n t : String),
        (s._emitUniformFromString n t)._emitUniformFromString n t
          = s._emitUniformFromString n t)
      ∧ (∀ (s : NodeMaterialBuildState) (n t : String), n ∉ s.uniforms →
          (s._emitUniformFromString n t).uniforms = s.uniforms ++ [n])
      ∧ (∀ (s : NodeMaterialBuildState) (n t : String), n ∈ s.uniforms →
          s._emitUniformFromString n t = s)
      ∧ (∀ (s : NodeMaterialBuildState) (n t : String),
          (s._emitAttributeFromString n t)._emitAttributeFromString n t
            = s._emitAttributeFromString n t)
      ∧ (∀ (s : NodeMaterialBuildState) (n t : String), n ∉ s.attributes →
          (s._emitAttributeFromString n t).attributes = s.attributes ++ [n]) := by
  refine ⟨?_, ?_, ?_, ?_, ?_⟩
  · intro s n t
    by_cases h : n ∈ s.uniforms
    · simp [NodeMaterialBuildState._emitUniformFromString, h]
    · simp only [NodeMaterialBuildState._emitUniformFromString, h,
        if_false, ite_false]
      have : n ∈ s.uniforms ++ [n] := by simp
      simp [this]
  · intro s n t h
    simp [NodeMaterialBuildState._emitUniformFromString, h]
  · intro s n t h
    simp [NodeMaterialBuildState._emitUniformFromString, h]
  · intro s n t
    by_cases h : n ∈ s.attributes
    · simp [NodeMaterialBuildState._emitAttributeFromString, h]
    · simp only [NodeMaterialBuildState._emitAttributeFromString, h,
        if_false, ite_false]
      have : n ∈ s.attributes ++ [n] := by simp
      simp [this]
  · intro s n t h
    simp [NodeMaterialBuildState._emitAttributeFromString, h]

/-- Witness for C7: emitting the `world` matrix uniform twice into a fresh
vertex state equals emitting it once, and the single emission appends the
name. -/
theorem emit_declaration_idempotent_witness :
    ((freshVertexState._emitUniformFromString "world"
        "mat4")._emitUniformFromString "world" "mat4"
      = freshVertexState._emitUniformFromString "world" "mat4")
      ∧ (freshVertexState._emitUniformFromString "world" "mat4").uniforms
          = freshVertexState.uniforms ++ ["world"] := by
  constructor
  · exact emit_declaration_idempotent.1 freshVertexState "world" "mat4"
  · exact emit_declaration_idempotent.2.1 freshVertexState "world" "mat4"
      (by decide)

/-! ## Connection point typing (claim C5) -/

/-- Claim C5: `connectTo` fails with `TypeMismatch` unless the source type
is identical to, or explicitly convertible to, the target point's declared
type; in particular a 3-component vector output cannot feed a scalar-only
input, while a scalar output feeds a vector input that declares an implicit
broadcast conversion. -/
theorem connectTo_type_checked :
    (∀ (p q : NodeMaterialConnectionPoint) (sid : Nat),
        p.isCompatible q.type = false →
        p.connectTo q sid = Except.error BuildError.TypeMismatch)
      ∧ (∀ (p q : NodeMaterialConnectionPoint) (sid : Nat),
          p.isCompatible q.type = true →
          p.connectTo q sid
            = Except.ok { p with connectedPoint := some sid })
      ∧ cpScalarIn.connectTo cpVec3Out 7
          = Except.error BuildError.TypeMismatch
      ∧ cpBroadcastIn.connectTo cpFloatOut 7
          = Except.ok { cpBroadcastIn with connectedPoint := some 7 } := by
  refine ⟨?_, ?_, by rfl, by rfl⟩
  · intro p q sid h
    simp [NodeMaterialConnectionPoint.connectTo, h]
  · intro p q sid h
    simp [NodeMaterialConnectionPoint.connectTo, h]

/-- Witness for C5: the general clauses applied to the concrete scalar-only
and broadcast-capable points. -/
theorem connectTo_type_checked_witness :
    cpScalarIn.connectTo cpVec3Out 9
        = Except.error BuildError.TypeMismatch
      ∧ cpBroadcastIn.connectTo cpFloatOut 9
          = Except.ok { cpBroadcastIn with connectedPoint := some 9 } := by
  constructor
  · exact connectTo_type_checked.1 cpScalarIn cpVec3Out 9 (by decide)
  · exact connectTo_type_checked.2.1 cpBroadcastIn cpFloatOut 9 (by decide)

/-! ## Input block sourcing modes (claim C9) -/

theorem setAsAttribute_modes (b : InputBlock) (n : String) :
    (activeSourceModes (b.setAsAttribute n)).length ≤ 1 := by
  simp [activeSourceModes, InputBlock.setAsAttribute, InputBlock.isAttribute,
    InputBlock.isSystemValue, InputBlock.isUniform]

theorem effectiveValue_setAsSystemValue (b : InputBlock)
    (v : Option NodeMaterialSystemValues) :
    (b.setAsSystemValue v).effectiveValue = b.effectiveValue := rfl

theorem mode_setAsSystemValue (b : InputBlock)
    (v : Option NodeMaterialSystemValues) :
    (b.setAsSystemValue v)._mode
      = NodeMaterialBlockConnectionPointMode.Uniform := rfl

theorem systemValue_setAsSystemValue (b : InputBlock)
    (v : Option NodeMaterialSystemValues) :
    (b.setAsSystemValue v)._systemValue = v := rfl

theorem setAsSystemValue_modes (b : InputBlock)
    (v : Option NodeMaterialSystemValues) :
    (activeSourceModes (b.setAsSystemValue v)).length ≤ 1 := by
  cases v with
  | none =>
    simp only [activeSourceModes, InputBlock.isAttribute,
      InputBlock.isSystemValue, InputBlock.isUniform,
      effectiveValue_setAsSystemValue, mode_setAsSystemValue,
      systemValue_setAsSystemValue]
    rcases Option.eq_none_or_eq_some b.effectiveValue with hev | ⟨v', hev⟩ <;>
      simp [hev]
  | some sv =>
    simp [activeSourceModes, InputBlock.isAttribute,
      InputBlock.isSystemValue, InputBlock.isUniform,
      mode_setAsSystemValue, systemValue_setAsSystemValue]

/-- Claim C9: the four sourcing modes of an input block are mutually
exclusive: starting from a block with at most one active sourcing mode,
any sequence of `setAsAttribute` / `setAsSystemValue` calls leaves at most
one sourcing mode active (each setter sets its mode and clears the
others). -/
theorem sourcing_modes_exclusive (b : InputBlock) (acts : List InputAction)
    (h : (activeSourceModes b).length ≤ 1) :
    (activeSourceModes (applyActions b acts)).length ≤ 1 := by
  induction acts generalizing b with
  | nil => exact h
  | cons a rest ih =>
    cases a with
    | asAttribute n =>
      exact ih (b.setAsAttribute n) (setAsAttribute_modes b n)
    | asSystemValue v =>
      exact ih (b.setAsSystemValue v) (setAsSystemValue_modes b v)

/-- Witness for C9: a fresh block taken through a system-value binding and
then an attribute binding ends with exactly the attribute mode active. -/
theorem sourcing_modes_exclusive_witness :
    (activeSourceModes ibExample).length ≤ 1
      ∧ (activeSourceModes
          (applyActions ibExample
            [InputAction.asSystemValue (some NodeMaterialSystemValues.World),
             InputAction.asAttribute "position"])).length ≤ 1 := by
  constructor
  · decide
  · exact sourcing_modes_exclusive ibExample
      [InputAction.asSystemValue (some NodeMaterialSystemValues.World),
       InputAction.asAttribute "position"] (by decide)

/-! ## Value callbacks override stored values (claim C10) -/

/-- Claim C10: when a value callback is set, the stored value property is
ignored - value transmission uses the callback's result, and changing the
stored value affects neither the transmitted value nor the inline constant
literal the block emits. -/
theorem valueCallback_overrides_value (b : InputBlock)
    (f : Unit → InputValue) (v : InputValue)
    (h : b._valueCallback = some f) :
    InputBlock._transmitValue (b.set_value v) = some (f ())
      ∧ InputBlock._transmitValue b = some (f ())
      ∧ InputBlock.constantLiteral (b.set_value v)
          = InputBlock.constantLiteral b
      ∧ InputBlock.effectiveValue (b.set_value v)
          = InputBlock.effectiveValue b := by
  simp [InputBlock._transmitValue, InputBlock.effectiveValue,
    InputBlock.set_value, InputBlock.constantLiteral, h]

/-- Witness for C10: the callback-carrying block transmits the callback's
result (7), not its stored value (3), and writing a new stored value
changes nothing. -/
theorem valueCallback_overrides_value_witness :
    InputBlock._transmitValue
        (ibWithCallback.set_value (InputValue.scalar 100))
      = some (InputValue.scalar 7)
      ∧ InputBlock._transmitValue ibWithCallback
          = some (InputValue.scalar 7) := by
  have h := valueCallback_overrides_value ibWithCallback
    (fun _ => InputValue.scalar 7) (InputValue.scalar 100) rfl
  exact ⟨h.1, h.2.1⟩

/-! ## Structural lemmas about the build context -/

@[simp]
theorem setState_graph (ctx : BuildCtx) (s : StageTag)
    (st : NodeMaterialBuildState) : (setState ctx s st).graph = ctx.graph := by
  cases s <;> rfl

@[simp]
theorem setState_inProgress (ctx : BuildCtx) (s : StageTag)
    (st : NodeMaterialBuildState) :
    (setState ctx s st).inProgress = ctx.inProgress := by
  cases s <;> rfl

@[simp]
theorem setState_trace (ctx : BuildCtx) (s : StageTag)
    (st : NodeMaterialBuildState) : (setState ctx s st).trace = ctx.trace := by
  cases s <;> rfl

@[simp]
theorem setState_shared (ctx : BuildCtx) (s : StageTag)
    (st : NodeMaterialBuildState) :
    (setState ctx s st).shared = ctx.shared := by
  cases s <;> rfl

theorem stateOf_setState_same (ctx : BuildCtx) (s : StageTag)
    (st : NodeMaterialBuildState) : stateOf (setState ctx s st) s = st := by
  cases s <;> rfl

theorem stateOf_setState (ctx : BuildCtx) (s s' : StageTag)
    (st : NodeMaterialBuildState) :
    stateOf (setState ctx s st) s' = if s' = s then st else stateOf ctx s' := by
  cases s <;> cases s' <;> simp [setState, stateOf]

@[simp]
theorem stateOf_withInProgress (ctx : BuildCtx) (l : List Nat) (s : StageTag) :
    stateOf { ctx with inProgress := l } s = stateOf ctx s := by
  cases s <;> rfl

@[simp]
theorem builtOf_withInProgress (ctx : BuildCtx) (l : List Nat) (s : StageTag) :
    builtOf { ctx with inProgress := l } s = builtOf ctx s := by
  simp [builtOf]

@[simp]
theorem stateOf_withShared (ctx : BuildCtx)
    (sd : NodeMaterialBuildStateSharedData) (s : StageTag) :
    stateOf { ctx with shared := sd } s = stateOf ctx s := by
  cases s <;> rfl

theorem buildInv_withInProgress (ctx : BuildCtx) (l : List Nat) :
    BuildInv { ctx with inProgress := l } ↔ BuildInv ctx := by
  simp [BuildInv, builtOf]

/-! ## Graph-surgery lemmas -/

theorem findBlock_map_preserving (g : NodeMaterialGraph) (f : Block → Block)
    (hf : ∀ b, (f b).id = b.id) (bid : Nat) :
    findBlock { g with blocks := g.blocks.map f } bid
      = (findBlock g bid).map f := by
  simp only [findBlock, List.find?_map]
  have : ((fun b => b.id == bid) ∘ f) = (fun b => b.id == bid) := by
    funext b
    simp [hf]
  rw [this]

theorem blockIds_map_preserving (g : NodeMaterialGraph) (f : Block → Block)
    (hf : ∀ b, (f b).id = b.id) :
    blockIds { g with blocks := g.blocks.map f } = blockIds g := by
  simp only [blockIds, List.map_map]
  congr 1
  funext b
  simp [hf]

theorem findBlock_resetBuildFlags (g : NodeMaterialGraph) (bid : Nat) :
    findBlock (resetBuildFlags g) bid
      = (findBlock g bid).map (fun b => { b with isBuilt := false }) :=
  findBlock_map_preserving g (fun b => { b with isBuilt := false })
    (fun _ => rfl) bid

theorem findBlock_markBuiltFlag (g : NodeMaterialGraph) (m bid : Nat) :
    findBlock (markBuiltFlag g m) bid
      = (findBlock g bid).map
          (fun b => if b.id == m then { b with isBuilt := true } else b) := by
  apply findBlock_map_preserving
  intro b
  by_cases h : b.id == m <;> simp [h]

theorem blockIds_resetBuildFlags (g : NodeMaterialGraph) :
    blockIds (resetBuildFlags g) = blockIds g :=
  blockIds_map_preserving g (fun b => { b with isBuilt := false })
    (fun _ => rfl)

theorem blockIds_markBuiltFlag (g : NodeMaterialGraph) (m : Nat) :
    blockIds (markBuiltFlag g m) = blockIds g := by
  apply blockIds_map_preserving
  intro b
  by_cases h : b.id == m <;> simp [h]

theorem srcIds_resetBuildFlags (g : NodeMaterialGraph) (bid : Nat) :
    srcIds (resetBuildFlags g) bid = srcIds g bid := by
  cases hfb : findBlock g bid with
  | none => simp [srcIds, findBlock_resetBuildFlags, hfb]
  | some b =>
    simp [srcIds, findBlock_resetBuildFlags, hfb, srcIdsOfBlock]

theorem srcIds_markBuiltFlag (g : NodeMaterialGraph) (m bid : Nat) :
    srcIds (markBuiltFlag g m) bid = srcIds g bid := by
  cases hfb : findBlock g bid with
  | none => simp [srcIds, findBlock_markBuiltFlag, hfb]
  | some b =>
    by_cases h : b.id = m <;>
      simp [srcIds, findBlock_markBuiltFlag, hfb, srcIdsOfBlock, h]

theorem resetBuildFlags_idem (g : NodeMaterialGraph) :
    resetBuildFlags (resetBuildFlags g) = resetBuildFlags g := by
  simp [resetBuildFlags, List.map_map]

theorem resetBuildFlags_markBuiltFlag (g : NodeMaterialGraph) (m : Nat) :
    resetBuildFlags (markBuiltFlag g m) = resetBuildFlags g := by
  simp only [resetBuildFlags, markBuiltFlag, List.map_map]
  have hfuns :
      ((fun b => { b with isBuilt := false })
          ∘ fun b : Block =>
              if b.id == m then { b with isBuilt := true } else b)
        = (fun b : Block => { b with isBuilt := false }) := by
    funext b
    by_cases h : b.id == m <;> simp [Function.comp, h]
  rw [hfuns]

theorem srcIds_of_resetEq (a b : NodeMaterialGraph)
    (h : resetBuildFlags a = resetBuildFlags b) (bid : Nat) :
    srcIds a bid = srcIds b bid := by
  rw [← srcIds_resetBuildFlags a, h, srcIds_resetBuildFlags]

theorem blockIds_of_resetEq (a b : NodeMaterialGraph)
    (h : resetBuildFlags a = resetBuildFlags b) :
    blockIds a = blockIds b := by
  rw [← blockIds_resetBuildFlags a, h, blockIds_resetBuildFlags]

theorem dep_of_resetEq (a b : NodeMaterialGraph)
    (h : resetBuildFlags a = resetBuildFlags b) (x y : Nat) :
    Dep a x y ↔ Dep b x y := by
  rw [Dep, Dep, srcIds_of_resetEq a b h]

theorem topoList_of_srcIds_eq (a b : NodeMaterialGraph)
    (h : ∀ bid, srcIds a bid = srcIds b bid) (l : List Nat)
    (ht : TopoList a l) : TopoList b l := by
  intro pre x post hdc q hq
  exact ht pre x post hdc q ((h x) ▸ hq)

theorem findBlock_mem_blockIds (g : NodeMaterialGraph) (bid : Nat)
    (b : Block) (h : findBlock g bid = some b) :
    bid ∈ blockIds g ∧ b.id = bid ∧ b ∈ g.blocks := by
  have hmem := List.mem_of_find?_eq_some h
  have hp := List.find?_some h
  simp only [beq_iff_eq] at hp
  refine ⟨?_, hp, hmem⟩
  rw [← hp]
  exact List.mem_map_of_mem _ hmem

theorem mem_blockIds_findBlock (g : NodeMaterialGraph) (bid : Nat)
    (h : bid ∈ blockIds g) : ∃ b, findBlock g bid = some b := by
  simp only [blockIds, List.mem_map] at h
  obtain ⟨b, hb, hid⟩ := h
  have : (g.blocks.find? (fun x => x.id == bid)).isSome := by
    rw [List.find?_isSome]
    exact ⟨b, hb, by simp [hid]⟩
  rw [Option.isSome_iff_exists] at this
  exact this

theorem srcIds_eq_of_findBlock (g : NodeMaterialGraph) (bid : Nat) (b : Block)
    (h : findBlock g bid = some b) : srcIds g bid = srcIdsOfBlock b := by
  simp [srcIds, h]

/-! ## Effect lemmas for emission -/

theorem emitVarying_varyings_cases (sd : NodeMaterialBuildStateSharedData)
    (n : String) (t : NMType) :
    (sd._emitVaryingFromString n t).2.varyings = sd.varyings
      ∨ ((sd._emitVaryingFromString n t).2.varyings = sd.varyings ++ [(n, t)]
          ∧ n ∉ sd.varyings.map Prod.fst) := by
  simp only [NodeMaterialBuildStateSharedData._emitVaryingFromString]
  cases hf : sd.varyings.find? (fun p => p.1 == n) with
  | none =>
    right
    refine ⟨by simp, ?_⟩
    intro hmem
    simp only [List.mem_map] at hmem
    obtain ⟨p, hp, hpn⟩ := hmem
    have := List.find?_eq_none.mp hf p hp
    simp [hpn] at this
  | some p => left; simp

theorem emitVarying_nodup (sd : NodeMaterialBuildStateSharedData)
    (n : String) (t : NMType) (h : (sd.varyings.map Prod.fst).Nodup) :
    ((sd._emitVaryingFromString n t).2.varyings.map Prod.fst).Nodup := by
  rcases emitVarying_varyings_cases sd n t with hc | ⟨hc, hn⟩
  · rw [hc]; exact h
  · rw [hc]
    simp only [List.map_append, List.map_cons, List.map_nil]
    simp [List.nodup_append, h, hn]

/-- Effects of a varying promotion: the graph, in-progress marks, trace and
per-stage built lists are untouched, and varying-name uniqueness is
preserved. -/
theorem promoteVarying_effects (ctx : BuildCtx) (sb : Block) (svar : String) :
    (promoteVarying ctx sb svar).2.graph = ctx.graph
      ∧ (promoteVarying ctx sb svar).2.inProgress = ctx.inProgress
      ∧ (promoteVarying ctx sb svar).2.trace = ctx.trace
      ∧ (∀ s, builtOf (promoteVarying ctx sb svar).2 s = builtOf ctx s)
      ∧ ((ctx.shared.varyings.map Prod.fst).Nodup →
          ((promoteVarying ctx sb svar).2.shared.varyings.map Prod.fst).Nodup) := by
  cases hr : (ctx.shared._emitVaryingFromString ("v_" ++ sb.name)
      (sb.outputType.getD NodeMaterialBlockConnectionPointTypes.Float)).1 with
  | true =>
    refine ⟨?_, ?_, ?_, ?_, ?_⟩
    · simp [promoteVarying, hr]
    · simp [promoteVarying, hr]
    · simp [promoteVarying, hr]
    · intro s
      simp only [promoteVarying, hr, ite_true]
      cases s <;> rfl
    · intro h
      simp only [promoteVarying, hr, ite_true]
      exact emitVarying_nodup _ _ _ h
  | false =>
    refine ⟨?_, ?_, ?_, ?_, ?_⟩
    · simp [promoteVarying, hr]
    · simp [promoteVarying, hr]
    · simp [promoteVarying, hr]
    · intro s
      simp only [promoteVarying, hr, Bool.false_eq_true, ite_false]
      cases s <;> rfl
    · intro h
      simp only [promoteVarying, hr, Bool.false_eq_true, ite_false]
      exact emitVarying_nodup _ _ _ h

/-- Effects of resolving one input. -/
theorem resolveInput_effects (pass cs : StageTag) (ctx : BuildCtx)
    (ip : InputPoint) :
    (resolveInput pass cs ctx ip).2.graph = ctx.graph
      ∧ (resolveInput pass cs ctx ip).2.inProgress = ctx.inProgress
      ∧ (resolveInput pass cs ctx ip).2.trace = ctx.trace
      ∧ (∀ s, builtOf (resolveInput pass cs ctx ip).2 s = builtOf ctx s)
      ∧ ((ctx.shared.varyings.map Prod.fst).Nodup →
          ((resolveInput pass cs ctx ip).2.shared.varyings.map
            Prod.fst).Nodup) := by
  cases hcp : ip.connectedPoint with
  | none =>
    refine ⟨?_, ?_, ?_, ?_, ?_⟩ <;> simp [resolveInput, hcp]
  | some src =>
    cases hfb : findBlock ctx.graph src with
    | none =>
      refine ⟨?_, ?_, ?_, ?_, ?_⟩ <;> simp [resolveInput, hcp, hfb]
    | some sb =>
      by_cases hcs : cs = StageTag.fragment
          ∧ emitStageOf pass sb = StageTag.vertex
      · have hre : resolveInput pass cs ctx ip
            = promoteVarying ctx sb
                (varNameOf (stateOf ctx (emitStageOf pass sb)) src) := by
          simp [resolveInput, hcp, hfb, hcs]
        rw [hre]
        exact promoteVarying_effects ctx sb _
      · refine ⟨?_, ?_, ?_, ?_, ?_⟩ <;> simp [resolveInput, hcp, hfb, hcs]

/-- Effects of resolving a whole input list. -/
theorem resolveInputs_effects (pass cs : StageTag) :
    ∀ (ips : List InputPoint) (ctx : BuildCtx),
      (resolveInputs pass cs ctx ips).2.graph = ctx.graph
        ∧ (resolveInputs pass cs ctx ips).2.inProgress = ctx.inProgress
        ∧ (resolveInputs pass cs ctx ips).2.trace = ctx.trace
        ∧ (∀ s, builtOf (resolveInputs pass cs ctx ips).2 s = builtOf ctx s)
        ∧ ((ctx.shared.varyings.map Prod.fst).Nodup →
            ((resolveInputs pass cs ctx ips).2.shared.varyings.map
              Prod.fst).Nodup) := by
  intro ips
  induction ips with
  | nil =>
    intro ctx
    exact ⟨rfl, rfl, rfl, fun s => rfl, fun h => h⟩
  | cons ip rest ih =>
    intro ctx
    obtain ⟨h1, h2, h3, h4, h5⟩ := resolveInput_effects pass cs ctx ip
    obtain ⟨g1, g2, g3, g4, g5⟩ := ih (resolveInput pass cs ctx ip).2
    simp only [resolveInputs]
    exact ⟨g1.trans h1, g2.trans h2, g3.trans h3,
      fun s => (g4 s).trans (h4 s), fun h => g5 (h5 h)⟩

/-- Effects of input block emission. -/
theorem emitInputBlock_effects (ctx : BuildCtx) (es : StageTag) (bid : Nat)
    (ib : InputBlock) :
    (emitInputBlock ctx es bid ib).graph = ctx.graph
      ∧ (emitInputBlock ctx es bid ib).inProgress = ctx.inProgress
      ∧ (emitInputBlock ctx es bid ib).trace = ctx.trace
      ∧ (∀ s, builtOf (emitInputBlock ctx es bid ib) s = builtOf ctx s)
      ∧ ((ctx.shared.varyings.map Prod.fst).Nodup →
          ((emitInputBlock ctx es bid ib).shared.varyings.map
            Prod.fst).Nodup) := by
  cases hm : ib._mode with
  | Attribute =>
    simp only [emitInputBlock, hm]
    refine ⟨by simp, by simp, by simp, ?_, by simp⟩
    intro s
    simp only [builtOf, stateOf_setState]
    split
    · next heq =>
      subst heq
      simp [NodeMaterialBuildState._emitAttributeFromString]
      split <;> rfl
    · rfl
  | Uniform =>
    cases hsv : ib._systemValue with
    | some sv =>
      simp only [emitInputBlock, hm, hsv]
      refine ⟨by simp, by simp, by simp, ?_, by simp⟩
      intro s
      simp only [builtOf, stateOf_setState]
      split
      · next heq =>
        subst heq
        simp [NodeMaterialBuildState._emitUniformFromString]
        split <;> rfl
      · rfl
    | none =>
      cases hcl : ib.constantLiteral with
      | some lit =>
        simp only [emitInputBlock, hm, hsv, hcl]
        refine ⟨by simp, by simp, by simp, ?_, by simp⟩
        intro s
        simp only [builtOf, stateOf_setState]
        split
        · next heq => subst heq; rfl
        · rfl
      | none =>
        simp only [emitInputBlock, hm, hsv, hcl]
        refine ⟨by simp, by simp, by simp, ?_, by simp⟩
        intro s
        simp only [builtOf, stateOf_setState]
        split
        · next heq =>
          subst heq
          simp [NodeMaterialBuildState._emitUniformFromString]
          split <;> rfl
        · rfl
  | Varying =>
    simp only [emitInputBlock, hm]
    refine ⟨by simp, by simp, by simp, ?_, ?_⟩
    · intro s
      simp only [builtOf, stateOf_setState]
      split
      · next heq => subst heq; simp [builtOf]
      · simp [builtOf]
    · intro h
      simp only [setState_shared]
      exact emitVarying_nodup _ _ _ h
  | Undefined =>
    simp only [emitInputBlock, hm]
    refine ⟨by simp, by simp, by simp, ?_, by simp⟩
    intro s
    simp only [builtOf, stateOf_setState]
    split
    · next heq => subst heq; rfl
    · rfl

/-- Effects of block emission: only declarations, statements, names and the
shared varying registry change; graph, marks and trace do not. -/
theorem emitBlock_effects (pass : StageTag) (ctx : BuildCtx) (b : Block)
    (es : StageTag) :
    (emitBlock pass ctx b es).graph = ctx.graph
      ∧ (emitBlock pass ctx b es).inProgress = ctx.inProgress
      ∧ (emitBlock pass ctx b es).trace = ctx.trace
      ∧ (∀ s, builtOf (emitBlock pass ctx b es) s = builtOf ctx s)
      ∧ ((ctx.shared.varyings.map Prod.fst).Nodup →
          ((emitBlock pass ctx b es).shared.varyings.map Prod.fst).Nodup) := by
  obtain ⟨r1, r2, r3, r4, r5⟩ := resolveInputs_effects pass es b.inputs
    ctx
  cases hk : b.kind with
  | input ib =>
    obtain ⟨e1, e2, e3, e4, e5⟩ := emitInputBlock_effects
      (resolveInputs pass es ctx b.inputs).2 es b.id ib
    simp only [emitBlock, hk]
    exact ⟨e1.trans r1, e2.trans r2, e3.trans r3,
      fun s => (e4 s).trans (r4 s), fun h => e5 (r5 h)⟩
  | operation op =>
    simp only [emitBlock, hk]
    refine ⟨by simp [r1], by simp [r2], by simp [r3], ?_,
      by simp only [setState_shared]; exact r5⟩
    intro s
    simp only [builtOf, stateOf_setState]
    split
    · next heq => rw [heq]; exact r4 es
    · exact r4 _
  | vertexOutput =>
    simp only [emitBlock, hk]
    refine ⟨by simp [r1], by simp [r2], by simp [r3], ?_,
      by simp only [setState_shared]; exact r5⟩
    intro s
    simp only [builtOf, stateOf_setState]
    split
    · next heq => rw [heq]; exact r4 es
    · exact r4 _
  | fragmentOutput =>
    simp only [emitBlock, hk]
    refine ⟨by simp [r1], by simp [r2], by simp [r3], ?_,
      by simp only [setState_shared]; exact r5⟩
    intro s
    simp only [builtOf, stateOf_setState]
    split
    · next heq => rw [heq]; exact r4 es
    · exact r4 _

/-- Effects of finishing a block: the block is emitted, appended to its
stage's built list and to the trace, its persistent flag is set, and the
topmost in-progress mark is popped. -/
theorem finishBlock_spec (pass : StageTag) (ctx : BuildCtx) (b : Block)
    (es : StageTag) :
    (finishBlock pass ctx b es).graph = markBuiltFlag ctx.graph b.id
      ∧ (finishBlock pass ctx b es).inProgress = ctx.inProgress.tail
      ∧ (finishBlock pass ctx b es).trace = ctx.trace ++ [b.id]
      ∧ builtOf (finishBlock pass ctx b es) es = builtOf ctx es ++ [b.id]
      ∧ (∀ s, s ≠ es → builtOf (finishBlock pass ctx b es) s = builtOf ctx s)
      ∧ ((ctx.shared.varyings.map Prod.fst).Nodup →
          ((finishBlock pass ctx b es).shared.varyings.map Prod.fst).Nodup) := by
  obtain ⟨e1, e2, e3, e4, e5⟩ := emitBlock_effects pass ctx b es
  refine ⟨?_, ?_, ?_, ?_, ?_, ?_⟩
  · simp only [finishBlock, setState_graph]
    rw [e1]
  · simp only [finishBlock, setState_inProgress]
    rw [e2]
  · simp only [finishBlock, setState_trace]
    rw [e3]
  · show builtOf _ es = _
    have : builtOf (finishBlock pass ctx b es) es
        = builtOf (setState (emitBlock pass ctx b es) es
            { stateOf (emitBlock pass ctx b es) es with
              _builtBlocks :=
                (stateOf (emitBlock pass ctx b es) es)._builtBlocks
                  ++ [b.id] }) es := by
      simp only [finishBlock, builtOf]
      cases es <;> rfl
    rw [this, builtOf, stateOf_setState_same]
    show (stateOf (emitBlock pass ctx b es) es)._builtBlocks ++ [b.id] = _
    rw [show (stateOf (emitBlock pass ctx b es) es)._builtBlocks
        = builtOf (emitBlock pass ctx b es) es from rfl, e4 es]
  · intro s hs
    have : builtOf (finishBlock pass ctx b es) s
        = builtOf (setState (emitBlock pass ctx b es) es
            { stateOf (emitBlock pass ctx b es) es with
              _builtBlocks :=
                (stateOf (emitBlock pass ctx b es) es)._builtBlocks
                  ++ [b.id] }) s := by
      simp only [finishBlock, builtOf]
      cases s <;> rfl
    rw [this, builtOf, stateOf_setState, if_neg hs]
    exact e4 s
  · intro h
    have : (finishBlock pass ctx b es).shared
        = (emitBlock pass ctx b es).shared := by
      simp only [finishBlock]
      cases es <;> rfl
    rw [this]
    exact e5 h

/-! ## Dependency order of the emission trace -/

theorem topoList_append (g : NodeMaterialGraph) (l : List Nat) (bid : Nat)
    (ht : TopoList g l) (hs : ∀ q ∈ srcIds g bid, q ∈ l) :
    TopoList g (l ++ [bid]) := by
  intro pre b post hdc q hq
  rcases List.eq_nil_or_concat post with rfl | ⟨post', x, rfl⟩
  · have hinj := List.append_inj' hdc (by simp)
    obtain ⟨rfl, hb⟩ := hinj
    simp only [List.cons.injEq] at hb
    obtain ⟨rfl, -⟩ := hb
    exact hs q hq
  · have hdc' : l ++ [bid] = (pre ++ b :: post') ++ [x] := by
      rw [hdc]
      simp
    have hinj := List.append_inj' hdc' (by simp)
    obtain ⟨hl, -⟩ := hinj
    exact ht pre b post' hl q hq

theorem firstSplit (l : List Nat) (a : Nat) (h : a ∈ l) :
    ∃ s t, l = s ++ a :: t ∧ a ∉ s := by
  induction l with
  | nil => cases h
  | cons x xs ih =>
    by_cases hx : x = a
    · exact ⟨[], xs, by simp [hx], by simp⟩
    · have hmem : a ∈ xs := by
        cases List.mem_cons.mp h with
        | inl h' => exact absurd h'.symm hx
        | inr h' => exact h'
      obtain ⟨s, t, hdc, hns⟩ := ih hmem
      exact ⟨x :: s, t, by rw [hdc]; rfl, by simp [hns, Ne.symm hx]⟩

theorem firstIdx_append_notMem (s : List Nat) (t : List Nat) (a : Nat)
    (hns : a ∉ s) : firstIdx (s ++ a :: t) a = s.length := by
  induction s with
  | nil => simp [firstIdx]
  | cons x xs ih =>
    have hx : x ≠ a := by
      intro hxa
      exact hns (by simp [hxa])
    have hxs : a ∉ xs := fun hmem => hns (by simp [hmem])
    simp [firstIdx, hx, ih hxs]

theorem firstIdx_lt_of_mem_left (s rest : List Nat) (q : Nat) (h : q ∈ s) :
    firstIdx (s ++ rest) q < s.length := by
  induction s with
  | nil => cases h
  | cons x xs ih =>
    by_cases hx : x = q
    · simp [firstIdx, hx]
    · have hmem : q ∈ xs := by
        cases List.mem_cons.mp h with
        | inl h' => exact absurd h'.symm hx
        | inr h' => exact h'
      simp only [List.cons_append, firstIdx, if_neg hx, List.length_cons,
        List.append_eq]
      have := ih hmem
      simp only [List.append_eq] at this
      omega

theorem topoList_src_lt (g : NodeMaterialGraph) (l : List Nat)
    (ht : TopoList g l) (b : Nat) (hb : b ∈ l) (q : Nat)
    (hq : q ∈ srcIds g b) : q ∈ l ∧ firstIdx l q < firstIdx l b := by
  obtain ⟨s, t, rfl, hns⟩ := firstSplit l b hb
  have hqs : q ∈ s := ht s b t rfl q hq
  constructor
  · exact List.mem_append_left _ hqs
  · rw [firstIdx_append_notMem s t b hns]
    exact firstIdx_lt_of_mem_left s (b :: t) q hqs

theorem topoList_transGen_lt (g : NodeMaterialGraph) (l : List Nat)
    (ht : TopoList g l) :
    ∀ a c, Relation.TransGen (Dep g) a c → a ∈ l →
      c ∈ l ∧ firstIdx l c < firstIdx l a := by
  intro a c hac
  induction hac with
  | single hd =>
    intro ha
    exact topoList_src_lt g l ht a ha _ hd
  | tail hab hd ih =>
    intro ha
    obtain ⟨hbmem, hblt⟩ := ih ha
    obtain ⟨hcmem, hclt⟩ := topoList_src_lt g l ht _ hbmem _ hd
    exact ⟨hcmem, by omega⟩

theorem topoList_no_cycle (g : NodeMaterialGraph) (l : List Nat)
    (ht : TopoList g l) (b : Nat) (hb : b ∈ l)
    (hc : Relation.TransGen (Dep g) b b) : False := by
  obtain ⟨-, hlt⟩ := topoList_transGen_lt g l ht b b hc hb
  omega

/-! ## The step contract of the traversal -/

theorem okStep_refl (ctx : BuildCtx) : OkStep ctx ctx :=
  ⟨rfl, rfl, List.prefix_refl _, fun _ => List.prefix_refl _,
    fun _ _ hx => Or.inl hx, fun h => h⟩

theorem okStep_trans (c1 c2 c3 : BuildCtx) (h1 : OkStep c1 c2)
    (h2 : OkStep c2 c3) : OkStep c1 c3 := by
  obtain ⟨a1, b1, t1, d1, e1, f1⟩ := h1
  obtain ⟨a2, b2, t2, d2, e2, f2⟩ := h2
  refine ⟨a2.trans a1, b2.trans b1, t1.trans t2,
    fun s => (d1 s).trans (d2 s), ?_, fun h => f2 (f1 h)⟩
  intro s x hx
  cases e2 s x hx with
  | inl h => exact e1 s x h
  | inr h =>
    right
    rw [← b1]
    exact h

theorem okStep_trace_mem (c1 c2 : BuildCtx) (h : OkStep c1 c2) (x : Nat)
    (hx : x ∈ c1.trace) : x ∈ c2.trace :=
  h.2.2.1.subset hx

/-- The fold over a block's inputs satisfies the step contract whenever the
recursive builder does; on success every connected source of the processed
inputs appears in the final trace. -/
theorem buildListAux_ok (next : BuildCtx → Nat → BuildRes)
    (hnext : ∀ ctx bid ctx', next ctx bid = BuildRes.ok ctx' →
      OkStep ctx ctx' ∧ (BuildInv ctx → bid ∈ ctx'.trace)) :
    ∀ (ips : List InputPoint) (ctx ctx' : BuildCtx),
      buildListAux next ctx ips = BuildRes.ok ctx' →
      OkStep ctx ctx'
        ∧ (BuildInv ctx → ∀ ip ∈ ips, ∀ s, ip.connectedPoint = some s →
            s ∈ ctx'.trace) := by
  intro ips
  induction ips with
  | nil =>
    intro ctx ctx' h
    simp only [buildListAux, BuildRes.ok.injEq] at h
    subst h
    exact ⟨okStep_refl ctx, fun _ ip hip => absurd hip (List.not_mem_nil ip)⟩
  | cons ip rest ih =>
    intro ctx ctx' h
    rw [buildListAux] at h
    cases hcp : ip.connectedPoint with
    | none =>
      simp only [hcp] at h
      by_cases hd : ip.defaultValue.isSome
      · rw [if_pos hd] at h
        obtain ⟨hstep, hmem⟩ := ih ctx ctx' h
        refine ⟨hstep, ?_⟩
        intro hinv ip' hip' s hs
        cases List.mem_cons.mp hip' with
        | inl heq =>
          subst heq
          rw [hcp] at hs
          cases hs
        | inr hmem' => exact hmem hinv ip' hmem' s hs
      · rw [if_neg hd] at h
        exact BuildRes.noConfusion h
    | some src =>
      simp only [hcp] at h
      cases hnx : next ctx src with
      | ok cmid =>
        simp only [hnx] at h
        obtain ⟨hoStep, hoMem⟩ := hnext ctx src cmid hnx
        obtain ⟨hrStep, hrMem⟩ := ih cmid ctx' h
        refine ⟨okStep_trans ctx cmid ctx' hoStep hrStep, ?_⟩
        intro hinv ip' hip' s hs
        cases List.mem_cons.mp hip' with
        | inl heq =>
          subst heq
          rw [hcp] at hs
          cases hs
          exact okStep_trace_mem cmid ctx' hrStep src (hoMem hinv)
        | inr hmem' =>
          exact hrMem (hoStep.2.2.2.2.2 hinv) ip' hmem' s hs
      | err e =>
        simp only [hnx] at h
        exact BuildRes.noConfusion h
      | timeout =>
        simp only [hnx] at h
        exact BuildRes.noConfusion h

/-- One traversal step satisfies the step contract whenever the recursion
over inputs does. -/
theorem buildBlockCore_ok (pass : StageTag)
    (recurse : BuildCtx → List InputPoint → BuildRes)
    (hrec : ∀ ctx ips ctx', recurse ctx ips = BuildRes.ok ctx' →
      OkStep ctx ctx'
        ∧ (BuildInv ctx → ∀ ip ∈ ips, ∀ s, ip.connectedPoint = some s →
            s ∈ ctx'.trace)) :
    ∀ ctx bid ctx', buildBlockCore pass recurse ctx bid = BuildRes.ok ctx' →
      OkStep ctx ctx' ∧ (BuildInv ctx → bid ∈ ctx'.trace) := by
  intro ctx bid ctx' h
  rw [buildBlockCore] at h
  cases hfb : findBlock ctx.graph bid with
  | none =>
    simp only [hfb] at h
    exact BuildRes.noConfusion h
  | some b =>
    simp only [hfb] at h
    by_cases hbuilt : bid ∈ builtOf ctx (emitStageOf pass b)
    · rw [if_pos hbuilt] at h
      simp only [BuildRes.ok.injEq] at h
      subst h
      exact ⟨okStep_refl _, fun hinv => hinv.1 _ hbuilt⟩
    · rw [if_neg hbuilt] at h
      by_cases hgray : bid ∈ ctx.inProgress
      · rw [if_pos hgray] at h
        exact BuildRes.noConfusion h
      · rw [if_neg hgray] at h
        cases hre : recurse { ctx with inProgress := bid :: ctx.inProgress }
            b.inputs with
        | ok c2 =>
          simp only [hre, BuildRes.ok.injEq] at h
          subst h
          obtain ⟨rStep, rMem⟩ := hrec _ _ _ hre
          obtain ⟨rA, rB, rC, rD, rE, rF⟩ := rStep
          obtain ⟨hmemids, hbid, hbblocks⟩ :=
            findBlock_mem_blockIds ctx.graph bid b hfb
          obtain ⟨f1, f2, f3, f4, f5, f6⟩ :=
            finishBlock_spec pass c2 b (emitStageOf pass b)
          have hrA : resetBuildFlags c2.graph = resetBuildFlags ctx.graph := rA
          have hrB : c2.inProgress = bid :: ctx.inProgress := rB
          have hrC : ctx.trace <+: c2.trace := rC
          have hrD : ∀ s, builtOf ctx s <+: builtOf c2 s := by
            intro s
            have := rD s
            simpa using this
          have hrE : ∀ s x, x ∈ builtOf c2 s →
              x ∈ builtOf ctx s ∨ x ∉ bid :: ctx.inProgress := by
            intro s x hx
            have := rE s x hx
            simpa using this
          have hsrc : srcIds c2.graph bid = srcIdsOfBlock b := by
            rw [srcIds_of_resetEq c2.graph ctx.graph hrA bid]
            exact srcIds_eq_of_findBlock ctx.graph bid b hfb
          have hbidNotBuilt : b.id ∉ builtOf c2 (emitStageOf pass b) := by
            intro hmem
            rw [hbid] at hmem
            cases hrE _ bid hmem with
            | inl hq => exact hbuilt hq
            | inr hq => exact hq (List.mem_cons_self _ _)
          refine ⟨⟨?_, ?_, ?_, ?_, ?_, ?_⟩, ?_⟩
          · rw [f1, resetBuildFlags_markBuiltFlag, hrA]
          · rw [f2, hrB]
            rfl
          · rw [f3]
            exact hrC.trans (List.prefix_append _ _)
          · intro s
            by_cases hs : s = emitStageOf pass b
            · subst hs
              rw [f4]
              exact (hrD _).trans (List.prefix_append _ _)
            · rw [f5 s hs]
              exact hrD s
          · intro s x hx
            by_cases hs : s = emitStageOf pass b
            · subst hs
              rw [f4] at hx
              cases List.mem_append.mp hx with
              | inl hq =>
                cases hrE _ x hq with
                | inl hq' => exact Or.inl hq'
                | inr hq' =>
                  right
                  intro hmem
                  exact hq' (List.mem_cons_of_mem _ hmem)
              | inr hq =>
                simp only [List.mem_singleton] at hq
                right
                rw [hq, hbid]
                exact hgray
            · rw [f5 s hs] at hx
              cases hrE _ x hx with
              | inl hq' => exact Or.inl hq'
              | inr hq' =>
                right
                intro hmem
                exact hq' (List.mem_cons_of_mem _ hmem)
          · intro hinv
            have hinv1 : BuildInv { ctx with inProgress := bid :: ctx.inProgress } :=
              (buildInv_withInProgress ctx _).mpr hinv
            have hinv2 : BuildInv c2 := rF hinv1
            have hsrcTrace : ∀ q ∈ srcIds c2.graph bid, q ∈ c2.trace := by
              intro q hq
              rw [hsrc] at hq
              simp only [srcIdsOfBlock, List.mem_filterMap] at hq
              obtain ⟨ip, hip, hcp⟩ := hq
              exact rMem hinv1 ip hip q hcp
            refine ⟨?_, ?_, ?_, ?_⟩
            · intro s
              by_cases hs : s = emitStageOf pass b
              · subst hs
                rw [f4, f3]
                intro x hx
                cases List.mem_append.mp hx with
                | inl hq => exact List.mem_append_left _ (hinv2.1 _ hq)
                | inr hq => exact List.mem_append_right _ hq
              · rw [f5 s hs, f3]
                intro x hx
                exact List.mem_append_left _ (hinv2.1 s hx)
            · have htc2 : TopoList c2.graph (c2.trace ++ [b.id]) := by
                apply topoList_append c2.graph c2.trace b.id hinv2.2.1
                intro q hq
                apply hsrcTrace
                rw [hbid] at hq
                exact hq
              rw [f3]
              have hgr : (finishBlock pass c2 b (emitStageOf pass b)).graph
                  = markBuiltFlag c2.graph b.id := f1
              rw [hgr]
              exact topoList_of_srcIds_eq c2.graph _
                (fun q => (srcIds_markBuiltFlag c2.graph b.id q).symm) _ htc2
            · intro s
              by_cases hs : s = emitStageOf pass b
              · subst hs
                rw [f4]
                refine List.Nodup.append (hinv2.2.2.1 _) (by simp) ?_
                intro x hx hx'
                simp only [List.mem_singleton] at hx'
                subst hx'
                exact hbidNotBuilt hx
              · rw [f5 s hs]
                exact hinv2.2.2.1 s
            · exact f6 hinv2.2.2.2
          · intro _hinv
            rw [f3, ← hbid]
            exact List.mem_append_right _ (List.mem_singleton.mpr rfl)
        | err e =>
          simp only [hre] at h
          exact BuildRes.noConfusion h
        | timeout =>
          simp only [hre] at h
          exact BuildRes.noConfusion h

/-- The full traversal satisfies the step contract at every fuel. -/
theorem buildBlock_ok (pass : StageTag) :
    ∀ (fuel : Nat) (ctx : BuildCtx) (bid : Nat) (ctx' : BuildCtx),
      buildBlock pass fuel ctx bid = BuildRes.ok ctx' →
      OkStep ctx ctx' ∧ (BuildInv ctx → bid ∈ ctx'.trace) := by
  intro fuel
  induction fuel with
  | zero =>
    intro ctx bid ctx' h
    refine buildBlockCore_ok pass _ ?_ ctx bid ctx' h
    intro c i c' hh
    exact buildListAux_ok _
      (fun a j a' (hhh : BuildRes.timeout = BuildRes.ok a') =>
        BuildRes.noConfusion hhh) i c c' hh
  | succ f ih =>
    intro ctx bid ctx' h
    refine buildBlockCore_ok pass _ ?_ ctx bid ctx' h
    intro c i c' hh
    exact buildListAux_ok _ (fun a j a' hhh => ih a j a' hhh) i c c' hh

/-! ## Termination: enough fuel rules the timeout out -/

theorem filter_length_mono (l : List Nat) (p q : Nat → Bool)
    (himp : ∀ i, q i = true → p i = true) :
    (l.filter q).length ≤ (l.filter p).length := by
  induction l with
  | nil => simp
  | cons x xs ih =>
    cases hqx : q x with
    | true =>
      rw [List.filter_cons_of_pos hqx, List.filter_cons_of_pos (himp x hqx)]
      simp only [List.length_cons]
      omega
    | false =>
      rw [List.filter_cons_of_neg (by simp [hqx])]
      cases hpx : p x with
      | true =>
        rw [List.filter_cons_of_pos hpx]
        simp only [List.length_cons]
        omega
      | false =>
        rw [List.filter_cons_of_neg (by simp [hpx])]
        exact ih

theorem filter_length_lt (l : List Nat) (p q : Nat → Bool)
    (himp : ∀ i, q i = true → p i = true) (bid : Nat) (hbid : bid ∈ l)
    (hp : p bid = true) (hq : q bid = false) :
    (l.filter q).length < (l.filter p).length := by
  induction l with
  | nil => cases hbid
  | cons x xs ih =>
    by_cases hxbid : x = bid
    · subst hxbid
      rw [List.filter_cons_of_neg (by simp [hq]), List.filter_cons_of_pos hp]
      have := filter_length_mono xs p q himp
      simp only [List.length_cons]
      omega
    · have hmem : bid ∈ xs := by
        cases List.mem_cons.mp hbid with
        | inl h' => exact absurd h'.symm hxbid
        | inr h' => exact h'
      cases hqx : q x with
      | true =>
        rw [List.filter_cons_of_pos hqx,
          List.filter_cons_of_pos (himp x hqx)]
        simp only [List.length_cons]
        have := ih hmem
        omega
      | false =>
        rw [List.filter_cons_of_neg (by simp [hqx])]
        cases hpx : p x with
        | true =>
          rw [List.filter_cons_of_pos hpx]
          simp only [List.length_cons]
          have := ih hmem
          omega
        | false =>
          rw [List.filter_cons_of_neg (by simp [hpx])]
          exact ih hmem

theorem unmarkedCount_push (ctx : BuildCtx) (bid : Nat)
    (hin : bid ∈ blockIds ctx.graph) (hnp : bid ∉ ctx.inProgress) :
    unmarkedCount { ctx with inProgress := bid :: ctx.inProgress }
      < unmarkedCount ctx := by
  apply filter_length_lt (blockIds ctx.graph) _ _ ?_ bid hin ?_ ?_
  · intro i hqi
    have h1 : i ∉ bid :: ctx.inProgress := by simpa using hqi
    have h2 : i ∉ ctx.inProgress := fun hm => h1 (List.mem_cons_of_mem _ hm)
    simpa using h2
  · simpa using hnp
  · simp

theorem okStep_unmarkedCount (c1 c2 : BuildCtx) (h : OkStep c1 c2) :
    unmarkedCount c2 = unmarkedCount c1 := by
  obtain ⟨a, b, -, -, -, -⟩ := h
  rw [unmarkedCount, unmarkedCount, blockIds_of_resetEq c2.graph c1.graph a, b]

theorem buildListAux_noTimeout (next : BuildCtx → Nat → BuildRes) (f : Nat)
    (hnt : ∀ ctx bid, unmarkedCount ctx < f →
      next ctx bid ≠ BuildRes.timeout)
    (hok : ∀ ctx bid ctx', next ctx bid = BuildRes.ok ctx' → OkStep ctx ctx') :
    ∀ (ips : List InputPoint) (ctx : BuildCtx), unmarkedCount ctx < f →
      buildListAux next ctx ips ≠ BuildRes.timeout := by
  intro ips
  induction ips with
  | nil =>
    intro ctx hc h
    exact BuildRes.noConfusion h
  | cons ip rest ih =>
    intro ctx hc h
    rw [buildListAux] at h
    cases hcp : ip.connectedPoint with
    | none =>
      simp only [hcp] at h
      by_cases hd : ip.defaultValue.isSome
      · rw [if_pos hd] at h
        exact ih ctx hc h
      · rw [if_neg hd] at h
        exact BuildRes.noConfusion h
    | some src =>
      simp only [hcp] at h
      cases hnx : next ctx src with
      | ok cmid =>
        simp only [hnx] at h
        have hcm : unmarkedCount cmid = unmarkedCount ctx :=
          okStep_unmarkedCount ctx cmid (hok ctx src cmid hnx)
        exact ih cmid (by omega) h
      | err e =>
        simp only [hnx] at h
        exact BuildRes.noConfusion h
      | timeout => exact hnt ctx src hc hnx

theorem buildBlock_noTimeout (pass : StageTag) :
    ∀ (fuel : Nat) (ctx : BuildCtx) (bid : Nat), unmarkedCount ctx < fuel →
      buildBlock pass fuel ctx bid ≠ BuildRes.timeout := by
  intro fuel
  induction fuel with
  | zero => intro ctx bid hc; omega
  | succ f ih =>
    intro ctx bid hc h
    rw [buildBlock, buildBlockCore] at h
    cases hfb : findBlock ctx.graph bid with
    | none =>
      simp only [hfb] at h
      exact BuildRes.noConfusion h
    | some b =>
      simp only [hfb] at h
      by_cases hbuilt : bid ∈ builtOf ctx (emitStageOf pass b)
      · rw [if_pos hbuilt] at h
        exact BuildRes.noConfusion h
      · rw [if_neg hbuilt] at h
        by_cases hgray : bid ∈ ctx.inProgress
        · rw [if_pos hgray] at h
          exact BuildRes.noConfusion h
        · rw [if_neg hgray] at h
          have hin : bid ∈ blockIds ctx.graph :=
            (findBlock_mem_blockIds ctx.graph bid b hfb).1
          have hpush := unmarkedCount_push ctx bid hin hgray
          have hlt : unmarkedCount
              { ctx with inProgress := bid :: ctx.inProgress } < f := by
            omega
          cases hre : buildListAux (buildBlock pass f)
              { ctx with inProgress := bid :: ctx.inProgress } b.inputs with
          | ok c2 =>
            simp only [hre] at h
            exact BuildRes.noConfusion h
          | err e =>
            simp only [hre] at h
            exact BuildRes.noConfusion h
          | timeout =>
            exact buildListAux_noTimeout (buildBlock pass f) f
              (fun c i hcc => ih c i hcc)
              (fun c i c' hh => (buildBlock_ok pass f c i c' hh).1)
              b.inputs _ hlt hre

/-! ## Which errors the traversal can produce -/

theorem buildListAux_errClass (next : BuildCtx → Nat → BuildRes)
    (hn : ∀ ctx bid e, next ctx bid = BuildRes.err e →
      e = BuildError.CyclicGraph ∨ e = BuildError.MissingConnection) :
    ∀ (ips : List InputPoint) (ctx : BuildCtx) (e : BuildError),
      buildListAux next ctx ips = BuildRes.err e →
      e = BuildError.CyclicGraph ∨ e = BuildError.MissingConnection := by
  intro ips
  induction ips with
  | nil =>
    intro ctx e h
    exact BuildRes.noConfusion h
  | cons ip rest ih =>
    intro ctx e h
    rw [buildListAux] at h
    cases hcp : ip.connectedPoint with
    | none =>
      simp only [hcp] at h
      by_cases hd : ip.defaultValue.isSome
      · rw [if_pos hd] at h
        exact ih ctx e h
      · rw [if_neg hd] at h
        simp only [BuildRes.err.injEq] at h
        exact Or.inr h.symm
    | some src =>
      simp only [hcp] at h
      cases hnx : next ctx src with
      | ok cmid =>
        simp only [hnx] at h
        exact ih cmid e h
      | err e' =>
        simp only [hnx] at h
        simp only [BuildRes.err.injEq] at h
        subst h
        exact hn ctx src _ hnx
      | timeout =>
        simp only [hnx] at h
        exact BuildRes.noConfusion h

theorem buildBlock_errClass (pass : StageTag) :
    ∀ (fuel : Nat) (ctx : BuildCtx) (bid : Nat) (e : BuildError),
      buildBlock pass fuel ctx bid = BuildRes.err e →
      e = BuildError.CyclicGraph ∨ e = BuildError.MissingConnection := by
  intro fuel
  induction fuel with
  | zero =>
    intro ctx bid e h
    rw [buildBlock, buildBlockCore] at h
    cases hfb : findBlock ctx.graph bid with
    | none =>
      simp only [hfb, BuildRes.err.injEq] at h
      exact Or.inr h.symm
    | some b =>
      simp only [hfb] at h
      by_cases hbuilt : bid ∈ builtOf ctx (emitStageOf pass b)
      · rw [if_pos hbuilt] at h
        exact BuildRes.noConfusion h
      · rw [if_neg hbuilt] at h
        by_cases hgray : bid ∈ ctx.inProgress
        · rw [if_pos hgray] at h
          simp only [BuildRes.err.injEq] at h
          exact Or.inl h.symm
        · rw [if_neg hgray] at h
          cases hre : buildListAux (fun _ _ => BuildRes.timeout)
              { ctx with inProgress := bid :: ctx.inProgress } b.inputs with
          | ok c2 =>
            simp only [hre] at h
            exact BuildRes.noConfusion h
          | err e' =>
            simp only [hre] at h
            simp only [BuildRes.err.injEq] at h
            subst h
            exact buildListAux_errClass _
              (fun c i e0 hh => BuildRes.noConfusion hh) b.inputs _ _ hre
          | timeout =>
            simp only [hre] at h
            exact BuildRes.noConfusion h
  | succ f ih =>
    intro ctx bid e h
    rw [buildBlock, buildBlockCore] at h
    cases hfb : findBlock ctx.graph bid with
    | none =>
      simp only [hfb, BuildRes.err.injEq] at h
      exact Or.inr h.symm
    | some b =>
      simp only [hfb] at h
      by_cases hbuilt : bid ∈ builtOf ctx (emitStageOf pass b)
      · rw [if_pos hbuilt] at h
        exact BuildRes.noConfusion h
      · rw [if_neg hbuilt] at h
        by_cases hgray : bid ∈ ctx.inProgress
        · rw [if_pos hgray] at h
          simp only [BuildRes.err.injEq] at h
          exact Or.inl h.symm
        · rw [if_neg hgray] at h
          cases hre : buildListAux (buildBlock pass f)
              { ctx with inProgress := bid :: ctx.inProgress } b.inputs with
          | ok c2 =>
            simp only [hre] at h
            exact BuildRes.noConfusion h
          | err e' =>
            simp only [hre] at h
            simp only [BuildRes.err.injEq] at h
            subst h
            exact buildListAux_errClass _
              (fun c i e0 hh => ih c i e0 hh) b.inputs _ _ hre
          | timeout =>
            simp only [hre] at h
            exact BuildRes.noConfusion h

/-! ## Well-formed graphs never fail with a missing connection -/

theorem findBlock_inputs_of_resetEq (gc g : NodeMaterialGraph)
    (h : resetBuildFlags gc = resetBuildFlags g) (bid : Nat) (b : Block)
    (hfb : findBlock gc bid = some b) :
    ∃ bg, findBlock g bid = some bg ∧ bg.inputs = b.inputs := by
  have h1 := findBlock_resetBuildFlags gc bid
  have h2 := findBlock_resetBuildFlags g bid
  rw [h] at h1
  rw [hfb] at h1
  rw [h2] at h1
  cases hfg : findBlock g bid with
  | none =>
    rw [hfg] at h1
    exact Option.noConfusion h1
  | some bg =>
    rw [hfg] at h1
    simp at h1
    exact ⟨bg, rfl, h1.2.2.2.2.1⟩

theorem wellFormed_inputs (g : NodeMaterialGraph) (hwf : wellFormed g = true)
    (b : Block) (hb : b ∈ g.blocks) :
    ∀ ip ∈ b.inputs,
      (∀ s, ip.connectedPoint = some s → s ∈ blockIds g)
        ∧ (ip.connectedPoint = none → ip.defaultValue.isSome = true) := by
  intro ip hip
  simp only [wellFormed, Bool.and_eq_true, List.all_eq_true] at hwf
  have := hwf.2 b hb ip hip
  constructor
  · intro s hs
    rw [hs] at this
    simpa using this
  · intro hn
    rw [hn] at this
    exact this

theorem buildListAux_noMC (next : BuildCtx → Nat → BuildRes)
    (g : NodeMaterialGraph)
    (hok : ∀ ctx bid ctx', next ctx bid = BuildRes.ok ctx' → OkStep ctx ctx')
    (hn : ∀ ctx bid, resetBuildFlags ctx.graph = resetBuildFlags g →
      bid ∈ blockIds g →
      next ctx bid ≠ BuildRes.err BuildError.MissingConnection) :
    ∀ (ips : List InputPoint) (ctx : BuildCtx),
      resetBuildFlags ctx.graph = resetBuildFlags g →
      (∀ ip ∈ ips,
        (∀ s, ip.connectedPoint = some s → s ∈ blockIds g)
          ∧ (ip.connectedPoint = none → ip.defaultValue.isSome = true)) →
      buildListAux next ctx ips ≠ BuildRes.err BuildError.MissingConnection := by
  intro ips
  induction ips with
  | nil =>
    intro ctx hre hips h
    exact BuildRes.noConfusion h
  | cons ip rest ih =>
    intro ctx hre hips h
    rw [buildListAux] at h
    cases hcp : ip.connectedPoint with
    | none =>
      simp only [hcp] at h
      have hd := (hips ip (List.mem_cons_self _ _)).2 hcp
      rw [if_pos hd] at h
      exact ih ctx hre (fun q hq => hips q (List.mem_cons_of_mem _ hq)) h
    | some src =>
      simp only [hcp] at h
      cases hnx : next ctx src with
      | ok cmid =>
        simp only [hnx] at h
        have hstep := hok ctx src cmid hnx
        have hre' : resetBuildFlags cmid.graph = resetBuildFlags g :=
          hstep.1.trans hre
        exact ih cmid hre' (fun q hq => hips q (List.mem_cons_of_mem _ hq)) h
      | err e =>
        simp only [hnx] at h
        simp only [BuildRes.err.injEq] at h
        subst h
        exact hn ctx src hre
          ((hips ip (List.mem_cons_self _ _)).1 src hcp) hnx
      | timeout =>
        simp only [hnx] at h
        exact BuildRes.noConfusion h

theorem buildBlock_noMC (pass : StageTag) (g : NodeMaterialGraph)
    (hwf : wellFormed g = true) :
    ∀ (fuel : Nat) (ctx : BuildCtx) (bid : Nat),
      resetBuildFlags ctx.graph = resetBuildFlags g →
      bid ∈ blockIds g →
      buildBlock pass fuel ctx bid
        ≠ BuildRes.err BuildError.MissingConnection := by
  intro fuel
  induction fuel with
  | zero =>
    intro ctx bid hre hin h
    rw [buildBlock, buildBlockCore] at h
    have hin' : bid ∈ blockIds ctx.graph := by
      rw [blockIds_of_resetEq ctx.graph g hre]
      exact hin
    obtain ⟨b, hfb⟩ := mem_blockIds_findBlock ctx.graph bid hin'
    simp only [hfb] at h
    by_cases hbuilt : bid ∈ builtOf ctx (emitStageOf pass b)
    · rw [if_pos hbuilt] at h
      exact BuildRes.noConfusion h
    · rw [if_neg hbuilt] at h
      by_cases hgray : bid ∈ ctx.inProgress
      · rw [if_pos hgray] at h
        simp only [BuildRes.err.injEq] at h
        exact BuildError.noConfusion h
      · rw [if_neg hgray] at h
        obtain ⟨bg, hfg, hinp⟩ :=
          findBlock_inputs_of_resetEq ctx.graph g hre bid b hfb
        have hips := wellFormed_inputs g hwf bg
          (findBlock_mem_blockIds g bid bg hfg).2.2
        rw [hinp] at hips
        cases hre2 : buildListAux (fun _ _ => BuildRes.timeout)
            { ctx with inProgress := bid :: ctx.inProgress } b.inputs with
        | ok c2 =>
          simp only [hre2] at h
          exact BuildRes.noConfusion h
        | err e =>
          simp only [hre2] at h
          simp only [BuildRes.err.injEq] at h
          subst h
          exact buildListAux_noMC _ g
            (fun c i c' hh => BuildRes.noConfusion hh)
            (fun c i hr1 hr2 hh => BuildRes.noConfusion hh)
            b.inputs { ctx with inProgress := bid :: ctx.inProgress }
            hre hips hre2
        | timeout =>
          simp only [hre2] at h
          exact BuildRes.noConfusion h
  | succ f ih =>
    intro ctx bid hre hin h
    rw [buildBlock, buildBlockCore] at h
    have hin' : bid ∈ blockIds ctx.graph := by
      rw [blockIds_of_resetEq ctx.graph g hre]
      exact hin
    obtain ⟨b, hfb⟩ := mem_blockIds_findBlock ctx.graph bid hin'
    simp only [hfb] at h
    by_cases hbuilt : bid ∈ builtOf ctx (emitStageOf pass b)
    · rw [if_pos hbuilt] at h
      exact BuildRes.noConfusion h
    · rw [if_neg hbuilt] at h
      by_cases hgray : bid ∈ ctx.inProgress
      · rw [if_pos hgray] at h
        simp only [BuildRes.err.injEq] at h
        exact BuildError.noConfusion h
      · rw [if_neg hgray] at h
        obtain ⟨bg, hfg, hinp⟩ :=
          findBlock_inputs_of_resetEq ctx.graph g hre bid b hfb
        have hips := wellFormed_inputs g hwf bg
          (findBlock_mem_blockIds g bid bg hfg).2.2
        rw [hinp] at hips
        cases hre2 : buildListAux (buildBlock pass f)
            { ctx with inProgress := bid :: ctx.inProgress } b.inputs with
        | ok c2 =>
          simp only [hre2] at h
          exact BuildRes.noConfusion h
        | err e =>
          simp only [hre2] at h
          simp only [BuildRes.err.injEq] at h
          subst h
          exact buildListAux_noMC _ g
            (fun c i c' hh => (buildBlock_ok pass f c i c' hh).1)
            (fun c i hr1 hr2 hh => ih c i hr1 hr2 hh)
            b.inputs { ctx with inProgress := bid :: ctx.inProgress }
            hre hips hre2
        | timeout =>
          simp only [hre2] at h
          exact BuildRes.noConfusion h

/-! ## A CyclicGraph error certifies a reachable cycle -/

theorem chainOK_reflTransGen (g : NodeMaterialGraph) :
    ∀ (l : List Nat) (b : Nat), chainOK g l → b ∈ l →
      Relation.ReflTransGen (Dep g) b (l.headD 0) := by
  intro l
  induction l with
  | nil => intro b _ hb; cases hb
  | cons x xs ih =>
    intro b hchain hb
    simp only [List.headD_cons]
    cases List.mem_cons.mp hb with
    | inl he =>
      subst he
      exact Relation.ReflTransGen.refl
    | inr hmem =>
      cases xs with
      | nil => cases hmem
      | cons y ys =>
        have hcc := List.chain'_cons.mp hchain
        have hstep := ih b hcc.2 hmem
        simp only [List.headD_cons] at hstep
        exact hstep.tail hcc.1

theorem buildListAux_cgSound (next : BuildCtx → Nat → BuildRes)
    (g : NodeMaterialGraph) (root : Nat)
    (hok : ∀ ctx bid ctx', next ctx bid = BuildRes.ok ctx' → OkStep ctx ctx')
    (hn : ∀ ctx bid, resetBuildFlags ctx.graph = resetBuildFlags g →
      chainOK g ctx.inProgress →
      (∀ x ∈ ctx.inProgress, Relation.ReflTransGen (Dep g) root x) →
      (ctx.inProgress ≠ [] → Dep g (ctx.inProgress.headD 0) bid) →
      Relation.ReflTransGen (Dep g) root bid →
      next ctx bid = BuildRes.err BuildError.CyclicGraph →
      cycleReachable g root) :
    ∀ (ips : List InputPoint) (ctx : BuildCtx),
      resetBuildFlags ctx.graph = resetBuildFlags g →
      chainOK g ctx.inProgress →
      (∀ x ∈ ctx.inProgress, Relation.ReflTransGen (Dep g) root x) →
      (∀ ip ∈ ips, ∀ s, ip.connectedPoint = some s →
        (ctx.inProgress ≠ [] → Dep g (ctx.inProgress.headD 0) s)
          ∧ Relation.ReflTransGen (Dep g) root s) →
      buildListAux next ctx ips = BuildRes.err BuildError.CyclicGraph →
      cycleReachable g root := by
  intro ips
  induction ips with
  | nil =>
    intro ctx _ _ _ _ h
    exact BuildRes.noConfusion h
  | cons ip rest ih =>
    intro ctx hre hchain hstack hips h
    rw [buildListAux] at h
    cases hcp : ip.connectedPoint with
    | none =>
      simp only [hcp] at h
      by_cases hd : ip.defaultValue.isSome
      · rw [if_pos hd] at h
        exact ih ctx hre hchain hstack
          (fun q hq => hips q (List.mem_cons_of_mem _ hq)) h
      · rw [if_neg hd] at h
        simp only [BuildRes.err.injEq] at h
        exact BuildError.noConfusion h
    | some src =>
      simp only [hcp] at h
      cases hnx : next ctx src with
      | ok cmid =>
        simp only [hnx] at h
        have hstep := hok ctx src cmid hnx
        have hre' : resetBuildFlags cmid.graph = resetBuildFlags g :=
          hstep.1.trans hre
        have hip' : cmid.inProgress = ctx.inProgress := hstep.2.1
        refine ih cmid hre' ?_ ?_ ?_ h
        · rw [hip']
          exact hchain
        · rw [hip']
          exact hstack
        · intro q hq s hs
          rw [hip']
          exact hips q (List.mem_cons_of_mem _ hq) s hs
      | err e =>
        simp only [hnx] at h
        simp only [BuildRes.err.injEq] at h
        subst h
        have hip := hips ip (List.mem_cons_self _ _) src hcp
        exact hn ctx src hre hchain hstack hip.1 hip.2 hnx
      | timeout =>
        simp only [hnx] at h
        exact BuildRes.noConfusion h

theorem buildBlock_cgSound (pass : StageTag) (g : NodeMaterialGraph)
    (root : Nat) :
    ∀ (fuel : Nat) (ctx : BuildCtx) (bid : Nat),
      resetBuildFlags ctx.graph = resetBuildFlags g →
      chainOK g ctx.inProgress →
      (∀ x ∈ ctx.inProgress, Relation.ReflTransGen (Dep g) root x) →
      (ctx.inProgress ≠ [] → Dep g (ctx.inProgress.headD 0) bid) →
      Relation.ReflTransGen (Dep g) root bid →
      buildBlock pass fuel ctx bid = BuildRes.err BuildError.CyclicGraph →
      cycleReachable g root := by
  intro fuel
  induction fuel with
  | zero =>
    intro ctx bid hre hchain hstack hlink hreach h
    rw [buildBlock, buildBlockCore] at h
    cases hfb : findBlock ctx.graph bid with
    | none =>
      simp only [hfb, BuildRes.err.injEq] at h
      exact BuildError.noConfusion h
    | some b =>
      simp only [hfb] at h
      by_cases hbuilt : bid ∈ builtOf ctx (emitStageOf pass b)
      · rw [if_pos hbuilt] at h
        exact BuildRes.noConfusion h
      · rw [if_neg hbuilt] at h
        by_cases hgray : bid ∈ ctx.inProgress
        · refine ⟨bid, hreach, ?_⟩
          have hne : ctx.inProgress ≠ [] := by
            intro hnil
            rw [hnil] at hgray
            cases hgray
          have hwalk := chainOK_reflTransGen g ctx.inProgress bid hchain hgray
          exact Relation.TransGen.tail' hwalk (hlink hne)
        · rw [if_neg hgray] at h
          cases hre2 : buildListAux (fun _ _ => BuildRes.timeout)
              { ctx with inProgress := bid :: ctx.inProgress } b.inputs with
          | ok c2 =>
            simp only [hre2] at h
            exact BuildRes.noConfusion h
          | err e =>
            simp only [hre2] at h
            simp only [BuildRes.err.injEq] at h
            subst h
            refine buildListAux_cgSound _ g root
              (fun c i c' hh => BuildRes.noConfusion hh)
              (fun c i hr1 hr2 hr3 hr4 hr5 hh => BuildRes.noConfusion hh)
              b.inputs { ctx with inProgress := bid :: ctx.inProgress }
              hre ?_ ?_ ?_ hre2
            · cases hin : ctx.inProgress with
              | nil => simp [chainOK]
              | cons y ys =>
                rw [chainOK, List.chain'_cons]
                constructor
                · have := hlink (by rw [hin]; simp)
                  rw [hin] at this
                  simpa using this
                · rw [← hin]
                  exact hchain
            · intro x hx
              cases List.mem_cons.mp hx with
              | inl he => subst he; exact hreach
              | inr hm => exact hstack x hm
            · intro q hq s hs
              have hdep : Dep g bid s := by
                rw [Dep, ← srcIds_of_resetEq ctx.graph g hre,
                  srcIds_eq_of_findBlock ctx.graph bid b hfb]
                simp only [srcIdsOfBlock, List.mem_filterMap]
                exact ⟨q, hq, hs⟩
              constructor
              · intro _
                simpa using hdep
              · exact hreach.tail hdep
          | timeout =>
            simp only [hre2] at h
            exact BuildRes.noConfusion h
  | succ f ih =>
    intro ctx bid hre hchain hstack hlink hreach h
    rw [buildBlock, buildBlockCore] at h
    cases hfb : findBlock ctx.graph bid with
    | none =>
      simp only [hfb, BuildRes.err.injEq] at h
      exact BuildError.noConfusion h
    | some b =>
      simp only [hfb] at h
      by_cases hbuilt : bid ∈ builtOf ctx (emitStageOf pass b)
      · rw [if_pos hbuilt] at h
        exact BuildRes.noConfusion h
      · rw [if_neg hbuilt] at h
        by_cases hgray : bid ∈ ctx.inProgress
        · refine ⟨bid, hreach, ?_⟩
          have hne : ctx.inProgress ≠ [] := by
            intro hnil
            rw [hnil] at hgray
            cases hgray
          have hwalk := chainOK_reflTransGen g ctx.inProgress bid hchain hgray
          exact Relation.TransGen.tail' hwalk (hlink hne)
        · rw [if_neg hgray] at h
          cases hre2 : buildListAux (buildBlock pass f)
              { ctx with inProgress := bid :: ctx.inProgress } b.inputs with
          | ok c2 =>
            simp only [hre2] at h
            exact BuildRes.noConfusion h
          | err e =>
            simp only [hre2] at h
            simp only [BuildRes.err.injEq] at h
            subst h
            refine buildListAux_cgSound _ g root
              (fun c i c' hh => (buildBlock_ok pass f c i c' hh).1)
              (fun c i hr1 hr2 hr3 hr4 hr5 hh =>
                ih c i hr1 hr2 hr3 hr4 hr5 hh)
              b.inputs { ctx with inProgress := bid :: ctx.inProgress }
              hre ?_ ?_ ?_ hre2
            · cases hin : ctx.inProgress with
              | nil => simp [chainOK]
              | cons y ys =>
                rw [chainOK, List.chain'_cons]
                constructor
                · have := hlink (by rw [hin]; simp)
                  rw [hin] at this
                  simpa using this
                · rw [← hin]
                  exact hchain
            · intro x hx
              cases List.mem_cons.mp hx with
              | inl he => subst he; exact hreach
              | inr hm => exact hstack x hm
            · intro q hq s hs
              have hdep : Dep g bid s := by
                rw [Dep, ← srcIds_of_resetEq ctx.graph g hre,
                  srcIds_eq_of_findBlock ctx.graph bid b hfb]
                simp only [srcIdsOfBlock, List.mem_filterMap]
                exact ⟨q, hq, hs⟩
              constructor
              · intro _
                simpa using hdep
              · exact hreach.tail hdep
          | timeout =>
            simp only [hre2] at h
            exact BuildRes.noConfusion h

/-! ## A successful traversal visits an acyclic region -/

theorem reachable_mem_trace (g : NodeMaterialGraph) (ctx' : BuildCtx)
    (root : Nat) (hsrc : ∀ q, srcIds ctx'.graph q = srcIds g q)
    (ht : TopoList ctx'.graph ctx'.trace) (hroot : root ∈ ctx'.trace) :
    ∀ b, Relation.ReflTransGen (Dep g) root b → b ∈ ctx'.trace := by
  intro b hr
  induction hr with
  | refl => exact hroot
  | tail hab hd ih =>
    refine (topoList_src_lt ctx'.graph _ ht _ ih _ ?_).1
    rw [hsrc]
    exact hd

theorem ok_no_reachable_cycle (pass : StageTag) (g : NodeMaterialGraph)
    (root : Nat) (fuel : Nat) (ctx ctx' : BuildCtx)
    (hre : resetBuildFlags ctx.graph = resetBuildFlags g)
    (hinv : BuildInv ctx)
    (hok : buildBlock pass fuel ctx root = BuildRes.ok ctx') :
    ¬ cycleReachable g root := by
  rintro ⟨b, hreach, hcyc⟩
  obtain ⟨hstep, hmem⟩ := buildBlock_ok pass fuel ctx root ctx' hok
  have hinv' := hstep.2.2.2.2.2 hinv
  have hre' : resetBuildFlags ctx'.graph = resetBuildFlags g :=
    hstep.1.trans hre
  have hsrc : ∀ q, srcIds ctx'.graph q = srcIds g q :=
    fun q => srcIds_of_resetEq _ _ hre' q
  have hbmem : b ∈ ctx'.trace :=
    reachable_mem_trace g ctx' root hsrc hinv'.2.1 (hmem hinv) b hreach
  have hcyc' : Relation.TransGen (Dep ctx'.graph) b b := by
    refine Relation.TransGen.mono ?_ hcyc
    intro x y hxy
    rw [Dep, hsrc x]
    exact hxy
  exact topoList_no_cycle ctx'.graph ctx'.trace hinv'.2.1 b hbmem hcyc'

theorem buildInv_mkCtx (g : NodeMaterialGraph) (caps : EngineCaps) :
    BuildInv (mkCtx g caps) := by
  refine ⟨?_, ?_, ?_, ?_⟩
  · intro s
    cases s <;> simp [mkCtx, builtOf, stateOf]
  · intro pre b post hdc q hq
    have : ([] : List Nat) = pre ++ b :: post := hdc
    cases pre with
    | nil => cases this
    | cons x xs => cases this
  · intro s
    cases s <;> simp [mkCtx, builtOf, stateOf]
  · simp [mkCtx]

/-! ## Pass-level assembly -/

theorem wellFormed_roots (g : NodeMaterialGraph) (h : wellFormed g = true) :
    g.vertexRoot ∈ blockIds g ∧ g.fragmentRoot ∈ blockIds g := by
  simp only [wellFormed, Bool.and_eq_true, decide_eq_true_eq] at h
  exact ⟨h.1.1, h.1.2⟩

theorem unmarkedCount_lt_fuel (ctx : BuildCtx) (g : NodeMaterialGraph)
    (hre : resetBuildFlags ctx.graph = resetBuildFlags g) :
    unmarkedCount ctx < canonicalFuel (resetBuildFlags g) := by
  have h1 : unmarkedCount ctx ≤ (blockIds ctx.graph).length :=
    List.length_filter_le _ _
  have h2 : blockIds ctx.graph = blockIds g := blockIds_of_resetEq _ _ hre
  have h3 : (blockIds g).length = g.blocks.length := List.length_map _ _
  have h4 : (resetBuildFlags g).blocks.length = g.blocks.length :=
    List.length_map _ _
  rw [canonicalFuel, h4]
  rw [h2, h3] at h1
  omega

theorem mkCtx_resetEq (g : NodeMaterialGraph) (caps : EngineCaps) :
    resetBuildFlags (mkCtx (resetBuildFlags g) caps).graph
      = resetBuildFlags g := by
  show resetBuildFlags (resetBuildFlags g) = resetBuildFlags g
  exact resetBuildFlags_idem g

/-- Claim C3 (amended): the build traversal always terminates - for every
graph and capabilities the build never exhausts its fuel; for every
well-formed graph in which a block reachable from the fragment or the
vertex root lies on a dependency cycle, the build fails with
`CyclicGraph`; and for every well-formed graph with no cycle reachable
from either root, the two-pass traversal completes successfully. -/
theorem cyclic_graph_detection :
    (∀ (g : NodeMaterialGraph) (caps : EngineCaps),
        buildMaterial g caps ≠ BuildOutcome.timeout)
      ∧ (∀ (g : NodeMaterialGraph) (caps : EngineCaps),
          wellFormed g = true →
          (cycleReachable g g.fragmentRoot ∨ cycleReachable g g.vertexRoot) →
          buildMaterial g caps = BuildOutcome.err BuildError.CyclicGraph)
      ∧ (∀ (g : NodeMaterialGraph) (caps : EngineCaps),
          wellFormed g = true →
          ¬ cycleReachable g g.fragmentRoot →
          ¬ cycleReachable g g.vertexRoot →
          ∃ ctx, runPasses g caps = BuildRes.ok ctx) := by
  have hkey : ∀ (g : NodeMaterialGraph) (caps : EngineCaps),
      runPasses g caps ≠ BuildRes.timeout := by
    intro g caps h
    simp only [runPasses] at h
    cases h1 : buildBlock StageTag.fragment
        (canonicalFuel (resetBuildFlags g)) (mkCtx (resetBuildFlags g) caps)
        (resetBuildFlags g).fragmentRoot with
    | ok ctx1 =>
      simp only [h1] at h
      have hstep := (buildBlock_ok StageTag.fragment _ _ _ _ h1).1
      have hre1 : resetBuildFlags ctx1.graph = resetBuildFlags g :=
        hstep.1.trans (mkCtx_resetEq g caps)
      exact buildBlock_noTimeout StageTag.vertex _ ctx1 _
        (unmarkedCount_lt_fuel ctx1 g hre1) h
    | err e =>
      simp only [h1] at h
      exact BuildRes.noConfusion h
    | timeout =>
      exact buildBlock_noTimeout StageTag.fragment _ _ _
        (unmarkedCount_lt_fuel _ g (mkCtx_resetEq g caps)) h1
  refine ⟨?_, ?_, ?_⟩
  · intro g caps h
    rw [buildMaterial] at h
    cases hrp : runPasses g caps with
    | ok ctx =>
      simp only [hrp] at h
      by_cases htc : typeConsistent ctx.shared.varyingRequests
      · rw [if_pos htc] at h
        exact BuildOutcome.noConfusion h
      · rw [if_neg htc] at h
        exact BuildOutcome.noConfusion h
    | err e =>
      simp only [hrp] at h
      exact BuildOutcome.noConfusion h
    | timeout => exact hkey g caps hrp
  · intro g caps hwf hcyc
    have hroots := wellFormed_roots g hwf
    cases h1 : buildBlock StageTag.fragment
        (canonicalFuel (resetBuildFlags g)) (mkCtx (resetBuildFlags g) caps)
        (resetBuildFlags g).fragmentRoot with
    | timeout =>
      exact absurd h1 (buildBlock_noTimeout StageTag.fragment _ _ _
        (unmarkedCount_lt_fuel _ g (mkCtx_resetEq g caps)))
    | err e =>
      cases buildBlock_errClass StageTag.fragment _ _ _ _ h1 with
      | inl hcg =>
        have hrp : runPasses g caps = BuildRes.err e := by
          rw [runPasses, h1]
        rw [buildMaterial, hrp, hcg]
      | inr hmc =>
        rw [hmc] at h1
        exact absurd h1 (buildBlock_noMC StageTag.fragment g hwf _ _ _
          (mkCtx_resetEq g caps) hroots.2)
    | ok ctx1 =>
      have hstep1 := (buildBlock_ok StageTag.fragment _ _ _ _ h1)
      have hre1 : resetBuildFlags ctx1.graph = resetBuildFlags g :=
        hstep1.1.1.trans (mkCtx_resetEq g caps)
      have hinv1 : BuildInv ctx1 :=
        hstep1.1.2.2.2.2.2 (buildInv_mkCtx (resetBuildFlags g) caps)
      cases h2 : buildBlock StageTag.vertex
          (canonicalFuel (resetBuildFlags g)) ctx1
          (resetBuildFlags g).vertexRoot with
      | timeout =>
        exact absurd h2 (buildBlock_noTimeout StageTag.vertex _ _ _
          (unmarkedCount_lt_fuel ctx1 g hre1))
      | err e =>
        cases buildBlock_errClass StageTag.vertex _ _ _ _ h2 with
        | inl hcg =>
          have hrp : runPasses g caps = BuildRes.err e := by
            rw [runPasses, h1]
            exact h2
          rw [buildMaterial, hrp, hcg]
        | inr hmc =>
          rw [hmc] at h2
          exact absurd h2 (buildBlock_noMC StageTag.vertex g hwf _ _ _
            hre1 hroots.1)
      | ok ctx2 =>
        exfalso
        cases hcyc with
        | inl hf =>
          exact ok_no_reachable_cycle StageTag.fragment g g.fragmentRoot _
            _ ctx1 (mkCtx_resetEq g caps)
            (buildInv_mkCtx (resetBuildFlags g) caps) h1 hf
        | inr hv =>
          exact ok_no_reachable_cycle StageTag.vertex g g.vertexRoot _
            ctx1 ctx2 hre1 hinv1 h2 hv
  · intro g caps hwf hncf hncv
    have hroots := wellFormed_roots g hwf
    cases h1 : buildBlock StageTag.fragment
        (canonicalFuel (resetBuildFlags g)) (mkCtx (resetBuildFlags g) caps)
        (resetBuildFlags g).fragmentRoot with
    | timeout =>
      exact absurd h1 (buildBlock_noTimeout StageTag.fragment _ _ _
        (unmarkedCount_lt_fuel _ g (mkCtx_resetEq g caps)))
    | err e =>
      exfalso
      cases buildBlock_errClass StageTag.fragment _ _ _ _ h1 with
      | inl hcg =>
        rw [hcg] at h1
        refine hncf (buildBlock_cgSound StageTag.fragment g g.fragmentRoot
          _ _ _ (mkCtx_resetEq g caps) ?_ ?_ ?_ ?_ h1)
        · simp [mkCtx, chainOK]
        · intro x hx
          simp [mkCtx] at hx
        · intro hne
          exact absurd rfl hne
        · exact Relation.ReflTransGen.refl
      | inr hmc =>
        rw [hmc] at h1
        exact absurd h1 (buildBlock_noMC StageTag.fragment g hwf _ _ _
          (mkCtx_resetEq g caps) hroots.2)
    | ok ctx1 =>
      have hstep1 := (buildBlock_ok StageTag.fragment _ _ _ _ h1)
      have hre1 : resetBuildFlags ctx1.graph = resetBuildFlags g :=
        hstep1.1.1.trans (mkCtx_resetEq g caps)
      have hip1 : ctx1.inProgress = [] := hstep1.1.2.1
      cases h2 : buildBlock StageTag.vertex
          (canonicalFuel (resetBuildFlags g)) ctx1
          (resetBuildFlags g).vertexRoot with
      | timeout =>
        exact absurd h2 (buildBlock_noTimeout StageTag.vertex _ _ _
          (unmarkedCount_lt_fuel ctx1 g hre1))
      | err e =>
        exfalso
        cases buildBlock_errClass StageTag.vertex _ _ _ _ h2 with
        | inl hcg =>
          rw [hcg] at h2
          refine hncv (buildBlock_cgSound StageTag.vertex g g.vertexRoot
            _ ctx1 _ hre1 ?_ ?_ ?_ ?_ h2)
          · rw [chainOK, hip1]
            simp
          · intro x hx
            rw [hip1] at hx
            cases hx
          · intro hne
            exact absurd hip1 hne
          · exact Relation.ReflTransGen.refl
        | inr hmc =>
          rw [hmc] at h2
          exact absurd h2 (buildBlock_noMC StageTag.vertex g hwf _ _ _
            hre1 hroots.1)
      | ok ctx2 =>
        refine ⟨ctx2, ?_⟩
        rw [runPasses, h1]
        exact h2

/-- Counterexample for C3 as stated: the graph `exCycUnreachable` contains
a block whose input is transitively connected to its own output (blocks 3
and 4 feed each other), yet the build succeeds, because the cycle is
unreachable from both output roots and reachability pruning never visits
it. -/
theorem cyclic_graph_claim_counterexample :
    hasCycle exCycUnreachable
      ∧ (buildMaterial exCycUnreachable exCaps).isOk = true := by
  have h34 : Dep exCycUnreachable 3 4 :=
    (by decide : (4 : Nat) ∈ srcIds exCycUnreachable 3)
  have h43 : Dep exCycUnreachable 4 3 :=
    (by decide : (3 : Nat) ∈ srcIds exCycUnreachable 4)
  exact ⟨⟨3, Relation.TransGen.trans (Relation.TransGen.single h34)
    (Relation.TransGen.single h43)⟩, by decide⟩

/-- Witness for C3: the well-formed graph `exCycReachable`, whose fragment
root reaches the cycle, fails with `CyclicGraph`; and no build ever times
out. -/
theorem cyclic_graph_detection_witness :
    wellFormed exCycReachable = true
      ∧ buildMaterial exCycReachable exCaps
          = BuildOutcome.err BuildError.CyclicGraph
      ∧ buildMaterial exCycUnreachable exCaps ≠ BuildOutcome.timeout := by
  have h23 : Dep exCycReachable 2 3 :=
    (by decide : (3 : Nat) ∈ srcIds exCycReachable 2)
  have h34 : Dep exCycReachable 3 4 :=
    (by decide : (4 : Nat) ∈ srcIds exCycReachable 3)
  have h43 : Dep exCycReachable 4 3 :=
    (by decide : (3 : Nat) ∈ srcIds exCycReachable 4)
  refine ⟨by decide, ?_, ?_⟩
  · exact cyclic_graph_detection.2.1 exCycReachable exCaps (by decide)
      (Or.inl ⟨3, Relation.ReflTransGen.single h23,
        Relation.TransGen.trans (Relation.TransGen.single h34)
          (Relation.TransGen.single h43)⟩)
  · exact cyclic_graph_detection.1 exCycUnreachable exCaps

/-! ## C1: determinism -/

theorem runPasses_congr (g g' : NodeMaterialGraph) (caps : EngineCaps)
    (h : resetBuildFlags g = resetBuildFlags g') :
    runPasses g caps = runPasses g' caps := by
  rw [runPasses, runPasses, h]

theorem runPasses_resetEq (g : NodeMaterialGraph) (caps : EngineCaps)
    (ctx : BuildCtx) (h : runPasses g caps = BuildRes.ok ctx) :
    resetBuildFlags ctx.graph = resetBuildFlags g := by
  rw [runPasses] at h
  cases h1 : buildBlock StageTag.fragment
      (canonicalFuel (resetBuildFlags g)) (mkCtx (resetBuildFlags g) caps)
      (resetBuildFlags g).fragmentRoot with
  | timeout =>
    rw [h1] at h
    exact BuildRes.noConfusion h
  | err e =>
    rw [h1] at h
    exact BuildRes.noConfusion h
  | ok ctx1 =>
    rw [h1] at h
    have h2 : buildBlock StageTag.vertex
        (canonicalFuel (resetBuildFlags g)) ctx1
        (resetBuildFlags g).vertexRoot = BuildRes.ok ctx := h
    have hs1 : resetBuildFlags ctx1.graph = resetBuildFlags g :=
      ((buildBlock_ok StageTag.fragment _ _ _ _ h1).1.1).trans
        (mkCtx_resetEq g caps)
    exact ((buildBlock_ok StageTag.vertex _ _ _ _ h2).1.1).trans hs1

/-- Claim C1: the build is a deterministic function of the graph and the
engine capabilities.  The outcome depends only on the flag-reset graph, so
any two graphs equal up to built flags build identically; in particular,
after a successful build, rebuilding the returned graph snapshot - with
the built flags the first build set, and fresh build states and shared
data created by the build itself - reproduces the byte-identical result,
sources included. -/
theorem build_deterministic :
    (∀ (g g' : NodeMaterialGraph) (caps : EngineCaps),
        resetBuildFlags g = resetBuildFlags g' →
        buildMaterial g caps = buildMaterial g' caps)
      ∧ (∀ (g : NodeMaterialGraph) (caps : EngineCaps)
          (r : NodeMaterialBuildResult),
          buildMaterial g caps = BuildOutcome.ok r →
          buildMaterial r.graph caps = BuildOutcome.ok r) := by
  have hcong : ∀ (g g' : NodeMaterialGraph) (caps : EngineCaps),
      resetBuildFlags g = resetBuildFlags g' →
      buildMaterial g caps = buildMaterial g' caps := by
    intro g g' caps h
    rw [buildMaterial, buildMaterial, runPasses_congr g g' caps h]
  refine ⟨hcong, ?_⟩
  intro g caps r h
  rw [buildMaterial] at h
  cases hq : runPasses g caps with
  | ok ctx =>
    rw [hq] at h
    have h' : (if typeConsistent ctx.shared.varyingRequests = true then
          BuildOutcome.ok (assemble ctx)
        else BuildOutcome.err BuildError.VaryingTypeConflict)
        = BuildOutcome.ok r := h
    by_cases htc : typeConsistent ctx.shared.varyingRequests = true
    · rw [if_pos htc] at h'
      injection h' with hr
      have hgr : r.graph = ctx.graph := by
        rw [← hr]
        rfl
      have hre : resetBuildFlags r.graph = resetBuildFlags g := by
        rw [hgr]
        exact runPasses_resetEq g caps ctx hq
      rw [hcong r.graph g caps hre, buildMaterial, hq]
      show (if typeConsistent ctx.shared.varyingRequests = true then
            BuildOutcome.ok (assemble ctx)
          else BuildOutcome.err BuildError.VaryingTypeConflict)
          = BuildOutcome.ok r
      rw [if_pos htc, hr]
    · rw [if_neg htc] at h'
      exact BuildOutcome.noConfusion h'
  | err e =>
    rw [hq] at h
    exact BuildOutcome.noConfusion h
  | timeout =>
    rw [hq] at h
    exact BuildOutcome.noConfusion h

/-- Witness for C1: the example graph builds the same after clearing its
flags, and the graph snapshot of its successful build rebuilds to the
byte-identical result. -/
theorem build_deterministic_witness :
    buildMaterial exGraph exCaps
        = buildMaterial (resetBuildFlags exGraph) exCaps
      ∧ (buildMaterial exGraph exCaps).isOk = true
      ∧ (∀ r, buildMaterial exGraph exCaps = BuildOutcome.ok r →
          buildMaterial r.graph exCaps = BuildOutcome.ok r) := by
  refine ⟨build_deterministic.1 exGraph (resetBuildFlags exGraph) exCaps
    (resetBuildFlags_idem exGraph).symm, by decide, ?_⟩
  intro r h
  exact build_deterministic.2 exGraph exCaps r h

/-! ## C2: memoized idempotent emission -/

theorem buildBlockCore_builtNoop (pass : StageTag)
    (recurse : BuildCtx → List InputPoint → BuildRes) (ctx : BuildCtx)
    (bid : Nat) (b : Block) (hfb : findBlock ctx.graph bid = some b)
    (hmem : bid ∈ builtOf ctx (emitStageOf pass b)) :
    buildBlockCore pass recurse ctx bid = BuildRes.ok ctx := by
  simp only [buildBlockCore, hfb]
  rw [if_pos hmem]

theorem runPasses_inv (g : NodeMaterialGraph) (caps : EngineCaps)
    (ctx : BuildCtx) (h : runPasses g caps = BuildRes.ok ctx) :
    BuildInv ctx := by
  rw [runPasses] at h
  cases h1 : buildBlock StageTag.fragment
      (canonicalFuel (resetBuildFlags g)) (mkCtx (resetBuildFlags g) caps)
      (resetBuildFlags g).fragmentRoot with
  | timeout =>
    rw [h1] at h
    exact BuildRes.noConfusion h
  | err e =>
    rw [h1] at h
    exact BuildRes.noConfusion h
  | ok ctx1 =>
    rw [h1] at h
    have h2 : buildBlock StageTag.vertex
        (canonicalFuel (resetBuildFlags g)) ctx1
        (resetBuildFlags g).vertexRoot = BuildRes.ok ctx := h
    have hinv1 : BuildInv ctx1 :=
      (buildBlock_ok StageTag.fragment _ _ _ _ h1).1.2.2.2.2.2
        (buildInv_mkCtx (resetBuildFlags g) caps)
    exact (buildBlock_ok StageTag.vertex _ _ _ _ h2).1.2.2.2.2.2 hinv1

/-- Claim C2: calling build again on a block already built in the current
pass's emission stage returns successfully with the context completely
unchanged - nothing is re-emitted; consequently, in a successful build
each block id appears at most once in each stage's emission order, so a
block reachable along two paths contributes its declarations and
statements exactly once per stage. -/
theorem build_idempotent_memoized :
    (∀ (pass : StageTag) (fuel : Nat) (ctx : BuildCtx) (bid : Nat)
        (b : Block),
        findBlock ctx.graph bid = some b →
        bid ∈ builtOf ctx (emitStageOf pass b) →
        buildBlock pass fuel ctx bid = BuildRes.ok ctx)
      ∧ (∀ (g : NodeMaterialGraph) (caps : EngineCaps)
          (r : NodeMaterialBuildResult),
          buildMaterial g caps = BuildOutcome.ok r →
          r.vertexBuilt.Nodup ∧ r.fragmentBuilt.Nodup) := by
  constructor
  · intro pass fuel ctx bid b hfb hmem
    cases fuel with
    | zero => exact buildBlockCore_builtNoop pass _ ctx bid b hfb hmem
    | succ n => exact buildBlockCore_builtNoop pass _ ctx bid b hfb hmem
  · intro g caps r h
    rw [buildMaterial] at h
    cases hq : runPasses g caps with
    | ok ctx =>
      rw [hq] at h
      have h' : (if typeConsistent ctx.shared.varyingRequests = true then
            BuildOutcome.ok (assemble ctx)
          else BuildOutcome.err BuildError.VaryingTypeConflict)
          = BuildOutcome.ok r := h
      by_cases htc : typeConsistent ctx.shared.varyingRequests = true
      · rw [if_pos htc] at h'
        injection h' with hr
        have hinv : BuildInv ctx := runPasses_inv g caps ctx hq
        have hv : r.vertexBuilt = builtOf ctx StageTag.vertex := by
          rw [← hr]
          rfl
        have hf : r.fragmentBuilt = builtOf ctx StageTag.fragment := by
          rw [← hr]
          rfl
        rw [hv, hf]
        exact ⟨hinv.2.2.1 StageTag.vertex, hinv.2.2.1 StageTag.fragment⟩
      · rw [if_neg htc] at h'
        exact BuildOutcome.noConfusion h'
    | err e =>
      rw [hq] at h
      exact BuildOutcome.noConfusion h
    | timeout =>
      rw [hq] at h
      exact BuildOutcome.noConfusion h

/-- Witness for C2: rebuilding the example fragment root after it is
already marked built in the fragment state is a no-op returning the very
same context, and the example build's two emission orders are
duplicate-free. -/
theorem build_idempotent_memoized_witness :
    buildBlock StageTag.fragment 7 exCtxBuilt 5 = BuildRes.ok exCtxBuilt
      ∧ ((buildMaterial exGraph exCaps).isOk = true
          ∧ (buildMaterial exGraph exCaps).vertexBuiltOf.Nodup
          ∧ (buildMaterial exGraph exCaps).fragmentBuiltOf.Nodup) := by
  refine ⟨build_idempotent_memoized.1 StageTag.fragment 7 exCtxBuilt 5
    exFOut rfl (by decide), by decide, ?_⟩
  have hok : (buildMaterial exGraph exCaps).isOk = true := by decide
  cases hh : buildMaterial exGraph exCaps with
  | ok r => exact build_idempotent_memoized.2 exGraph exCaps r hh
  | err e =>
    rw [hh] at hok
    exact Bool.noConfusion hok
  | timeout =>
    rw [hh] at hok
    exact Bool.noConfusion hok

/-! ## C4: varying consistency -/

theorem nodup_keys_type_eq {l : List (String × NMType)}
    (hl : (l.map Prod.fst).Nodup) (n : String) (t t' : NMType)
    (h1 : (n, t) ∈ l) (h2 : (n, t') ∈ l) : t = t' := by
  induction l with
  | nil => cases h1
  | cons a rest ih =>
    simp only [List.map_cons, List.nodup_cons] at hl
    cases h1 with
    | head =>
      cases h2 with
      | head => rfl
      | tail _ hm =>
        exact absurd (List.mem_map_of_mem Prod.fst hm) hl.1
    | tail _ hm1 =>
      cases h2 with
      | head =>
        exact absurd (List.mem_map_of_mem Prod.fst hm1) hl.1
      | tail _ hm2 => exact ih hl.2 hm1 hm2

/-- Claim C4: in every successful build the single shared varying
declaration text occurs verbatim in both generated sources, and the
varying registry never pairs one name with two types; a build whose
cross-stage varying requests disagree on a type does not succeed but
fails with `VaryingTypeConflict`. -/
theorem varying_consistency :
    (∀ (g : NodeMaterialGraph) (caps : EngineCaps)
        (r : NodeMaterialBuildResult),
        buildMaterial g caps = BuildOutcome.ok r →
        containsSeg r.vertexSource r.varyingDeclaration
          ∧ containsSeg r.fragmentSource r.varyingDeclaration
          ∧ ∀ n t t', (n, t) ∈ r.varyings → (n, t') ∈ r.varyings →
              t = t')
      ∧ (∀ (g : NodeMaterialGraph) (caps : EngineCaps) (st : BuildCtx),
          runPasses g caps = BuildRes.ok st →
          typeConsistent st.shared.varyingRequests = false →
          buildMaterial g caps
            = BuildOutcome.err BuildError.VaryingTypeConflict) := by
  constructor
  · intro g caps r h
    rw [buildMaterial] at h
    cases hq : runPasses g caps with
    | ok ctx =>
      rw [hq] at h
      have h' : (if typeConsistent ctx.shared.varyingRequests = true then
            BuildOutcome.ok (assemble ctx)
          else BuildOutcome.err BuildError.VaryingTypeConflict)
          = BuildOutcome.ok r := h
      by_cases htc : typeConsistent ctx.shared.varyingRequests = true
      · rw [if_pos htc] at h'
        injection h' with hr
        have hinv : BuildInv ctx := runPasses_inv g caps ctx hq
        refine ⟨?_, ?_, ?_⟩
        · refine ⟨extensionsText ctx.vx ++ ctx.vx._uniformDeclaration
            ++ ctx.vx._samplerDeclaration
            ++ (if ctx.vx.target == NodeMaterialBlockTargets.Vertex then
                  ctx.vx._attributeDeclaration
                else ""),
            functionsText ctx.vx ++ "void main()\n"
              ++ ctx.vx.compilationString ++ ctx.vx._varyingTransfer, ?_⟩
          rw [← hr]
          show (assemble ctx).vertexSource = _
          simp only [assemble, NodeMaterialBuildState.finalize,
            String.append_assoc]
        · refine ⟨extensionsText ctx.fg ++ ctx.fg._uniformDeclaration
            ++ ctx.fg._samplerDeclaration
            ++ (if ctx.fg.target == NodeMaterialBlockTargets.Vertex then
                  ctx.fg._attributeDeclaration
                else ""),
            functionsText ctx.fg ++ "void main()\n"
              ++ ctx.fg.compilationString ++ ctx.fg._varyingTransfer, ?_⟩
          rw [← hr]
          show (assemble ctx).fragmentSource = _
          simp only [assemble, NodeMaterialBuildState.finalize,
            String.append_assoc]
        · intro n t t' h1 h2
          have hvar : r.varyings = ctx.shared.varyings := by
            rw [← hr]
            rfl
          rw [hvar] at h1 h2
          exact nodup_keys_type_eq hinv.2.2.2 n t t' h1 h2
      · rw [if_neg htc] at h'
        exact BuildOutcome.noConfusion h'
    | err e =>
      rw [hq] at h
      exact BuildOutcome.noConfusion h
    | timeout =>
      rw [hq] at h
      exact BuildOutcome.noConfusion h
  · intro g caps st hq htc
    rw [buildMaterial, hq]
    show (if typeConsistent st.shared.varyingRequests = true then
          BuildOutcome.ok (assemble st)
        else BuildOutcome.err BuildError.VaryingTypeConflict) = _
    rw [if_neg (by rw [htc]; exact Bool.false_ne_true)]

/-- Witness for C4: the example cross-stage build succeeds and carries its
varying declaration text in both sources, while the deliberately
conflicting graph (`foo` as vec3 in the vertex stage, vec4 in the
fragment stage) fails with `VaryingTypeConflict`. -/
theorem varying_consistency_witness :
    ((buildMaterial exGraph exCaps).isOk = true
        ∧ containsSeg (buildMaterial exGraph exCaps).vsrcOf
            (buildMaterial exGraph exCaps).varyingDeclOf
        ∧ containsSeg (buildMaterial exGraph exCaps).fsrcOf
            (buildMaterial exGraph exCaps).varyingDeclOf)
      ∧ buildMaterial exVaryConflict exCaps
          = BuildOutcome.err BuildError.VaryingTypeConflict := by
  constructor
  · refine ⟨by decide, ?_⟩
    have hok : (buildMaterial exGraph exCaps).isOk = true := by decide
    cases hh : buildMaterial exGraph exCaps with
    | ok r =>
      have h1 := varying_consistency.1 exGraph exCaps r hh
      exact ⟨h1.1, h1.2.1⟩
    | err e =>
      rw [hh] at hok
      exact Bool.noConfusion hok
    | timeout =>
      rw [hh] at hok
      exact Bool.noConfusion hok
  · have hrp : runPasses exVaryConflict exCaps
        = BuildRes.ok ((runPasses exVaryConflict exCaps).ctxOut.getD
            (mkCtx exVaryConflict exCaps)) := by
      rfl
    refine varying_consistency.2 exVaryConflict exCaps _ hrp (by decide)

/-! ## C8: serialization round trip -/

theorem inputs_roundtrip (l : List InputPoint) :
    l.map (fun ip => deserializeInput (serializeInput ip)) = l := by
  induction l with
  | nil => rfl
  | cons a t ih =>
    rw [List.map_cons, ih]
    rfl

theorem deserializeBlock_roundtrip (b : Block)
    (hcb : (match b.kind with
        | BlockKind.input ib => ib._valueCallback.isNone
        | _ => true) = true) :
    deserializeBlock (serializeBlock b) = some { b with isBuilt := false } := by
  cases b with
  | mk id name target kind inputs outputType isBuilt =>
    have hin : (inputs.map serializeInput).map deserializeInput = inputs := by
      rw [List.map_map]
      exact inputs_roundtrip inputs
    cases kind with
    | input ib =>
      have hnone : ib._valueCallback = none := by
        simpa using hcb
      have hmid : deserializeBlock (serializeBlock
          { id := id
            name := name
            target := target
            kind := BlockKind.input ib
            inputs := inputs
            outputType := outputType
            isBuilt := isBuilt })
          = some
            { id := id
              name := name
              target := target
              kind := BlockKind.input
                { name := ib.name
                  target := ib.target
                  _type := ib._type
                  _mode := ib._mode
                  _systemValue := ib._systemValue
                  _storedValue := ib._storedValue
                  _valueCallback := none
                  _associatedVariableName := ib._associatedVariableName }
              inputs := (inputs.map serializeInput).map deserializeInput
              outputType := outputType
              isBuilt := false } := rfl
      rw [hmid, hin, ← hnone]
    | operation op =>
      have hmid : deserializeBlock (serializeBlock
          { id := id
            name := name
            target := target
            kind := BlockKind.operation op
            inputs := inputs
            outputType := outputType
            isBuilt := isBuilt })
          = some
            { id := id
              name := name
              target := target
              kind := BlockKind.operation op
              inputs := (inputs.map serializeInput).map deserializeInput
              outputType := outputType
              isBuilt := false } := rfl
      rw [hmid, hin]
    | vertexOutput =>
      have hmid : deserializeBlock (serializeBlock
          { id := id
            name := name
            target := target
            kind := BlockKind.vertexOutput
            inputs := inputs
            outputType := outputType
            isBuilt := isBuilt })
          = some
            { id := id
              name := name
              target := target
              kind := BlockKind.vertexOutput
              inputs := (inputs.map serializeInput).map deserializeInput
              outputType := outputType
              isBuilt := false } := rfl
      rw [hmid, hin]
    | fragmentOutput =>
      have hmid : deserializeBlock (serializeBlock
          { id := id
            name := name
            target := target
            kind := BlockKind.fragmentOutput
            inputs := inputs
            outputType := outputType
            isBuilt := isBuilt })
          = some
            { id := id
              name := name
              target := target
              kind := BlockKind.fragmentOutput
              inputs := (inputs.map serializeInput).map deserializeInput
              outputType := outputType
              isBuilt := false } := rfl
      rw [hmid, hin]

theorem mapM_ser_deser (bs : List Block)
    (h : ∀ b ∈ bs, (match b.kind with
        | BlockKind.input ib => ib._valueCallback.isNone
        | _ => true) = true) :
    (bs.map serializeBlock).mapM deserializeBlock
      = some (bs.map (fun b => { b with isBuilt := false })) := by
  induction bs with
  | nil => rfl
  | cons a t ih =>
    rw [List.map_cons, List.mapM_cons,
      deserializeBlock_roundtrip a (h a (List.mem_cons_self a t)),
      ih (fun b hb => h b (List.mem_cons_of_mem a hb))]
    rfl

/-- Claim C8 (amended): for every graph none of whose blocks carries a
runtime value callback, serialize then deserialize reconstructs exactly
the original graph with its built flags cleared, and building the
reconstruction produces the byte-identical outcome (a fortiori equivalent
modulo variable numbering).  A graph with a value callback round-trips to
a different material: callbacks are not serializable, so the rebuilt
block falls back to its stored value. -/
theorem serialization_roundtrip :
    ∀ (g : NodeMaterialGraph) (caps : EngineCaps),
      noCallbacks g = true →
      deserializeGraph (serializeGraph g) = some (resetBuildFlags g)
        ∧ buildMaterial (resetBuildFlags g) caps = buildMaterial g caps := by
  intro g caps h
  constructor
  · have hall : ∀ b ∈ g.blocks, (match b.kind with
        | BlockKind.input ib => ib._valueCallback.isNone
        | _ => true) = true := by
      simpa [noCallbacks, List.all_eq_true] using h
    show ((g.blocks.map serializeBlock).mapM deserializeBlock).map
        (fun bs =>
          { blocks := bs
            vertexRoot := g.vertexRoot
            fragmentRoot := g.fragmentRoot })
        = some (resetBuildFlags g)
    rw [mapM_ser_deser g.blocks hall]
    rfl
  · rw [buildMaterial, buildMaterial,
      runPasses_congr (resetBuildFlags g) g caps (resetBuildFlags_idem g)]

/-- Counterexample for C8 as stated: the callback graph serializes and
deserializes without error, but the reconstruction is the callback-free
graph, and the two fragment sources differ even after erasing every
digit (so not merely in variable-name numbering): the callback inlines
the literal vec4(1, 2, 3, 4) while the rebuilt block inlines its stored
scalar 3. -/
theorem serialization_roundtrip_counterexample :
    deserializeGraph (serializeGraph exCallbackGraph)
        = some exCallbackGraphRound
      ∧ (buildMaterial exCallbackGraph exCaps).isOk = true
      ∧ (buildMaterial exCallbackGraphRound exCaps).isOk = true
      ∧ stripDigits (buildMaterial exCallbackGraph exCaps).fsrcOf
          ≠ stripDigits (buildMaterial exCallbackGraphRound exCaps).fsrcOf := by
  refine ⟨?_, by decide, by decide, by decide⟩
  rfl

/-- Witness for C8: the callback-free example graph round-trips to itself
(flags cleared) and rebuilds byte-identically. -/
theorem serialization_roundtrip_witness :
    noCallbacks exGraph = true
      ∧ deserializeGraph (serializeGraph exGraph)
          = some (resetBuildFlags exGraph)
      ∧ buildMaterial (resetBuildFlags exGraph) exCaps
          = buildMaterial exGraph exCaps := by
  have h := serialization_roundtrip exGraph exCaps (by decide)
  exact ⟨by decide, h.1, h.2⟩

end BabylonCpp
